import Mathlib

/-!
# BSV wrapper backend (`backends/bsv/bsv.cc`)

A shallow embedding of `BsvWriter`: the writer is a record that is passed
explicitly, the output stream `f` is the list of chunks written to it (one
chunk per `f << stringf(...)`), `std::map` is a key-sorted association list
and a C++ exception is an `Except` error that carries the writer as it was
when the exception was thrown.

A `String` stands for a `std::string`; one `Char` stands for one C++ `char`.
-/

namespace Bsv

/-! ## Strings -/

/-- Comparison of two character sequences the way `std::string::operator<`
does it: first differing character decides, a proper prefix is smaller. -/
def lt_chars : List Char → List Char → Bool
  | [], [] => false
  | [], _ :: _ => true
  | _ :: _, [] => false
  | a :: as, b :: bs =>
    if a.toNat < b.toNat then true
    else if b.toNat < a.toNat then false
    else lt_chars as bs

/-- The order `std::sort` and `std::map` use on `std::string` keys. -/
def str_lt (a b : String) : Bool := lt_chars a.data b.data

/-- Search of `g` inside `p` from position `i` on: the first position at
which `g` starts, as `std::string::find` returns it; `none` is `npos`. -/
def find_from (g : List Char) : List Char → Nat → Option Nat
  | [], i => if g.isPrefixOf [] then some i else none
  | c :: cs, i => if g.isPrefixOf (c :: cs) then some i else find_from g cs (i + 1)

/-- The call `p.find(g)`. -/
def find (p g : String) : Option Nat := find_from g.data p.data 0

/-- Exceptions thrown by the code; both are `std::out_of_range`. -/
inductive Err where
  | map_at
  | substr
  deriving DecidableEq, Repr

/-- The call `p.substr(pos)`: throws when `pos > p.size()`. -/
def substr (p : String) (pos : Nat) : Except Err String :=
  if pos > p.length then .error Err.substr else .ok ⟨p.data.drop pos⟩

/-- The C function `toupper` in the "C" locale. -/
def toupper (c : Char) : Char :=
  if 97 ≤ c.toNat ∧ c.toNat ≤ 122 then Char.ofNat (c.toNat - 32) else c

/-- Member function `BsvWriter::to_type_name`: upper-cases `newstr[0]`. On the empty string
`newstr[0]` is the terminator, which `toupper` leaves as it is. -/
def to_type_name (str : String) : String :=
  match str.data with
  | [] => str
  | c :: cs => ⟨toupper c :: cs⟩

/-- Helper of `std::sort`: puts `x` in its place in an ascending list. -/
def ordered_insert (x : String) : List String → List String
  | [] => [x]
  | y :: ys => if str_lt y x then y :: ordered_insert x ys else x :: y :: ys

/-- Call `std::sort(groups.begin(), groups.end())`: ascending by `operator<`. -/
def std_sort (l : List String) : List String := l.foldr ordered_insert []

/-! ## `std::map<std::string, α>` -/

/-- A `std::map` keyed by `std::string`: the entries in ascending key order,
which is the order a range-`for` visits them in. -/
abbrev StdMap (α : Type) := List (String × α)

/-- Key search by comparisons, as the ordered map does it. -/
def StdMap.find {α : Type} : StdMap α → String → Option α
  | [], _ => none
  | (k, v) :: rest, key =>
    if str_lt key k then none
    else if key = k then some v
    else StdMap.find rest key

/-- Call `m.emplace(key, v)`: inserts at the sorted position unless the key is
already there, in which case the map is unchanged. -/
def StdMap.emplace {α : Type} : StdMap α → String → α → StdMap α
  | [], key, v => [(key, v)]
  | (k, x) :: rest, key, v =>
    if str_lt key k then (key, v) :: (k, x) :: rest
    else if key = k then (k, x) :: rest
    else (k, x) :: StdMap.emplace rest key v

/-- Call `m.at(key)`: throws `std::out_of_range` on a missing key. -/
def StdMap.map_at {α : Type} (m : StdMap α) (key : String) : Except Err α :=
  match m.find key with
  | some v => .ok v
  | none => .error Err.map_at

/-- The effect of `m[key]` on the map: a missing key gets a default value. -/
def StdMap.index {α : Type} [Inhabited α] (m : StdMap α) (key : String) : StdMap α :=
  m.emplace key default

/-- Update in place of the value stored under `key`, if there is one. -/
def StdMap.modify {α : Type} : StdMap α → String → (α → α) → StdMap α
  | [], _, _ => []
  | (k, v) :: rest, key, fn =>
    if str_lt key k then (k, v) :: rest
    else if key = k then (k, fn v) :: rest
    else (k, v) :: StdMap.modify rest key fn

/-! ## Data model -/

/-- The fields of `RTLIL::Wire` the backend reads; `size` is
`sigmap(w).size()`. -/
structure Wire where
  port_input : Bool
  port_output : Bool
  size : Nat
  deriving DecidableEq, Repr

/-- One entry `n` of `module->ports`: `name` is `get_name(n)` and `wire` is
`module->wire(n)`. The entry also stands for the `IdString` itself. -/
structure Port where
  name : String
  wire : Wire
  deriving DecidableEq, Repr

/-- The part of `RTLIL::Module` the backend reads; `name` is
`get_name(module->name)`. -/
structure Module where
  name : String
  ports : List Port
  deriving DecidableEq, Repr

/-- The state of `BsvWriter` that generation reads or writes. `f` is the
output stream. The members `sigmap`, `sigids` and `sigidcounter` are only
used by `get_bits`, which no live code calls. -/
structure BsvWriter where
  f : List String
  use_selection : Bool
  clocks : List String
  resets : List String
  params : List String
  groups : List String
  interface : String
  interface_groups : StdMap (List String)
  deriving DecidableEq, Repr

/-- The constructor of `BsvWriter`: an empty stream and an empty group map. -/
def BsvWriter.new (use_selection : Bool) (clocks resets params groups : List String)
    (interface : String) : BsvWriter :=
  { f := [], use_selection := use_selection, clocks := clocks, resets := resets,
    params := params, groups := groups, interface := interface, interface_groups := [] }

/-- One `f << stringf(...)`. -/
def BsvWriter.write (w : BsvWriter) (s : String) : BsvWriter :=
  { w with f := w.f ++ [s] }

/-- The text in the stream. -/
def BsvWriter.text (w : BsvWriter) : String := String.join w.f

/-- Result of a member function that can throw: the writer afterwards, or
the exception together with the writer at the moment of the throw. -/
abbrev Outcome := Except (Err × BsvWriter) BsvWriter

/-- A range-`for` whose body can throw. -/
def for_each {α : Type} (body : BsvWriter → α → Outcome) : List α → BsvWriter → Outcome
  | [], w => .ok w
  | x :: xs, w =>
    match body w x with
    | .ok w' => for_each body xs w'
    | .error e => .error e

/-- The expression `w->port_input ? w->port_output ? "inout" : "input" : "output"`. -/
def direction_of (w : Wire) : String :=
  if w.port_input then (if w.port_output then "inout" else "input") else "output"

/-- The conversion `%lu` of `stringf`. -/
def fmt_lu (n : Nat) : String := Nat.repr n

/-! ## `BsvWriter` member functions -/

/-- Member function `BsvWriter::is_clock_or_reset`. -/
def is_clock_or_reset (w : BsvWriter) (s : String) : Bool :=
  if w.clocks.contains s then true
  else if w.resets.contains s then true
  else false

/-- Body of the loop over `groups` in `regroup_ports`, for the port `p`. -/
def regroup_step (p : String) (w : BsvWriter) (g : String) : BsvWriter :=
  if (find p g).isSome then
    { w with interface_groups := (w.interface_groups.index g).modify g (fun v => v ++ [p]) }
  else w

/-- Body of the loop over `ports` in `regroup_ports`. -/
def regroup_port (groups : List String) (w : BsvWriter) (p : String) : BsvWriter :=
  groups.foldl (regroup_step p) w

/-- Member function `BsvWriter::regroup_ports`. -/
def regroup_ports (w : BsvWriter) (groups ports : List String) : BsvWriter :=
  if groups.isEmpty then w
  else
    let groups := std_sort groups
    ports.foldl (regroup_port groups) w

/-- The local tables `generate_interface` builds from `module->ports`
(`port_directions` holds the direction strings and is never read back). -/
structure PortTables where
  ports : List String
  port_directions : StdMap String
  port_sizes : StdMap Nat
  port_map : StdMap Port
  deriving DecidableEq, Repr

/-- Body of the first loop of `generate_interface` for one entry `n`. -/
def collect_port (w : BsvWriter) (t : PortTables) (n : Port) : PortTables :=
  if is_clock_or_reset w n.name then t
  else
    { ports := t.ports ++ [n.name],
      port_directions := t.port_directions.emplace n.name (direction_of n.wire),
      port_sizes := t.port_sizes.emplace n.name n.wire.size,
      port_map := t.port_map.emplace n.name n }

/-- The first loop of `generate_interface`. -/
def collect_ports (w : BsvWriter) (module : Module) : PortTables :=
  module.ports.foldl (collect_port w)
    { ports := [], port_directions := [], port_sizes := [], port_map := [] }

/-- Body of the loop over `ig.second` in `generate_interface`. -/
def generate_interface_method (t : PortTables) (ig_first : String) (w : BsvWriter)
    (p : String) : Outcome :=
  match t.port_map.map_at p with
  | .error e => .error (e, w)
  | .ok id =>
    match t.port_sizes.map_at p with
    | .error e => .error (e, w)
    | .ok size =>
      match substr p (ig_first.length + 1) with
      | .error e => .error (e, w)
      | .ok sig =>
        let direction := direction_of id.wire
        if direction = "input" then
          .ok (w.write ("   method Action " ++ sig ++ "(Bit#(" ++ fmt_lu size ++ ") v);\n"))
        else if direction = "output" then
          .ok (w.write ("   method Bit#(" ++ fmt_lu size ++ ") " ++ sig ++ "();\n"))
        else .ok w

/-- Body of the first loop over `interface_groups` in `generate_interface`:
one interface block. -/
def generate_interface_group (t : PortTables) (w : BsvWriter)
    (ig : String × List String) : Outcome :=
  let w := w.write "(* always_ready, always_enabled *)\n"
  let w := w.write ("interface " ++ to_type_name ig.1 ++ ";\n")
  match for_each (generate_interface_method t ig.1) ig.2 w with
  | .error e => .error e
  | .ok w => .ok (w.write "endinterface\n")

/-- Body of the second loop over `interface_groups` in `generate_interface`:
one field of the aggregate interface. -/
def generate_interface_field (w : BsvWriter) (ig : String × List String) : BsvWriter :=
  w.write ("    interface " ++ to_type_name ig.1 ++ " " ++ ig.1 ++ ";\n")

/-- Member function `BsvWriter::generate_interface`. -/
def generate_interface (w : BsvWriter) (module : Module) (interface : String) : Outcome :=
  let t := collect_ports w module
  let w := regroup_ports w w.groups t.ports
  match for_each (generate_interface_group t) w.interface_groups w with
  | .error e => .error e
  | .ok w =>
    let w := w.write "(* always_ready, always_enabled *)\n"
    let w := w.write ("interface " ++ to_type_name interface ++ ";\n")
    let w := w.interface_groups.foldl generate_interface_field w
    .ok (w.write "endinterface\n")

/-- Body of the loop over `signals` in `generate_instance`. -/
def generate_instance_signal (portmap : StdMap Port) (interface : String) (w : BsvWriter)
    (s : String) : Outcome :=
  match portmap.map_at s with
  | .error e => .error (e, w)
  | .ok id =>
    let direction := direction_of id.wire
    match substr s (interface.length + 1) with
    | .error e => .error (e, w)
    | .ok name =>
      if direction = "input" then
        .ok (w.write ("        method " ++ name ++ "(" ++ name ++ ") enable((*in_high*) EN_"
          ++ name ++ ");\n"))
      else if direction = "output" then
        .ok (w.write ("        method " ++ name ++ " " ++ name ++ "();\n"))
      else if direction = "inout" then
        .ok (w.write ("        inout " ++ name ++ ";\n"))
      else .ok w

/-- The local map `portmap` of `generate_instance`. -/
def instance_portmap (module : Module) : StdMap Port :=
  module.ports.foldl (fun m p => m.emplace p.name p) []

/-- Member function `BsvWriter::generate_instance`. Reading
`interface_groups[interface]` goes through `operator[]`, which adds a missing
key. -/
def generate_instance (w : BsvWriter) (module : Module) (interface : String) : Outcome :=
  let portmap := instance_portmap module
  let w := { w with interface_groups := w.interface_groups.index interface }
  let signals := (w.interface_groups.find interface).getD []
  let w := w.write ("    interface " ++ to_type_name interface ++ " " ++ interface ++ ";\n")
  match for_each (generate_instance_signal portmap interface) signals w with
  | .error e => .error e
  | .ok w => .ok (w.write "    endinterface\n")

/-- The loop `for (it = ports.begin(); it != ports.end(); ++it)` of
`generate_schedule`: the name, then `",\n"` unless `it` is the last one. -/
def schedule_names : List String → BsvWriter → BsvWriter
  | [], w => w
  | [x], w => w.write ("        " ++ x)
  | x :: y :: rest, w => schedule_names (y :: rest) ((w.write ("        " ++ x)).write ",\n")

/-- The vector `ports` of `generate_schedule`. -/
def schedule_ports (w : BsvWriter) (module : Module) : List String :=
  module.ports.foldl (fun ports n =>
    if is_clock_or_reset w n.name then ports else ports ++ [n.name]) []

/-- Member function `BsvWriter::generate_schedule`. -/
def generate_schedule (w : BsvWriter) (module : Module) : BsvWriter :=
  let ports := schedule_ports w module
  let w := w.write "    schedule(\n"
  let w := schedule_names ports w
  let w := w.write "\n    ) CF (\n"
  let w := schedule_names ports w
  w.write "\n    );\n"

/-- The loop over `resets` in the header of `write_module`. -/
def write_resets : List String → BsvWriter → BsvWriter
  | [], w => w
  | [x], w => w.write ("Reset " ++ x)
  | x :: y :: rest, w => write_resets (y :: rest) ((w.write ("Reset " ++ x)).write ", ")

/-- Member function `BsvWriter::write_module`. The loop over `interface_groups` visits the
entries of the map as it is when the loop starts; `generate_instance` only
indexes keys that are there, which leaves the map as it is. -/
def write_module (w : BsvWriter) (module_ : Module) : Outcome :=
  match generate_interface w module_ w.interface with
  | .error e => .error e
  | .ok w =>
    let w := w.write ("import \"BVI\" " ++ module_.name ++ "=\n")
    let w := w.write ("module mk" ++ w.interface ++ "#(")
    let w := w.clocks.foldl (fun w c => w.write ("Clock " ++ c ++ ", ")) w
    let w := write_resets w.resets w
    let w := w.write ")"
    let w := w.write ("(" ++ w.interface ++ ");\n")
    let w := w.clocks.foldl
      (fun w c => w.write ("    input_clock " ++ c ++ "() = " ++ c ++ ";\n")) w
    let w := w.resets.foldl
      (fun w r => w.write ("    input_reset " ++ r ++ "() = " ++ r ++ ";\n")) w
    match for_each (fun w ig => generate_instance w module_ ig.1) w.interface_groups w with
    | .error e => .error e
    | .ok w =>
      let w := generate_schedule w module_
      .ok (w.write "endmodule\n")

/-- The loop of `write_design` from its second round on (`first_module` is
false). -/
def write_design_rest : List Module → BsvWriter → Outcome
  | [], w => .ok w
  | mod :: rest, w =>
    match write_module (w.write ",\n") mod with
    | .error e => .error e
    | .ok w => write_design_rest rest w

/-- Member function `BsvWriter::write_design` on the list of modules to process. -/
def write_design (w : BsvWriter) (modules : List Module) : Outcome :=
  match modules with
  | [] => .ok w
  | mod :: rest =>
    match write_module w mod with
    | .error e => .error e
    | .ok w => write_design_rest rest w

/-! ## Views used to state the properties -/

/-- The member list `interface_groups[g]` reads: empty for a missing key. -/
def members (m : StdMap (List String)) (g : String) : List String := (m.find g).getD []

/-- The occurrences of `p` that one round of the loop over `ports` appends
to the group `k`, for the sorted prefix list `gs`. -/
def appended (gs : List String) (k p : String) : List String :=
  if (find p k).isSome then List.replicate (gs.count k) p else []

/-- Whether the port name contains at least one of the prefixes. -/
def in_some_group (groups : List String) (name : String) : Bool :=
  groups.any (fun g => (find name g).isSome)

/-- The module with only the ports whose names pass the test `keep`. -/
def keep_ports (keep : String → Bool) (m : Module) : Module :=
  { m with ports := m.ports.filter (fun n => keep n.name) }

/-- The module without the ports whose names contain none of the prefixes. -/
def drop_ungrouped (groups : List String) (m : Module) : Module :=
  keep_ports (in_some_group groups) m

/-- The ports of the module that are neither a clock nor a reset. -/
def regular_ports (w : BsvWriter) (m : Module) : List Port :=
  m.ports.filter (fun n => !is_clock_or_reset w n.name)

/-- The chunks an emitter writes: all of them when it returns, or the
exception together with the chunks written before the throw. -/
abbrev Trace := Except (Err × List String) (List String)

/-- The writer after the chunks `l` went to the stream. -/
def BsvWriter.append (w : BsvWriter) (l : List String) : BsvWriter :=
  { w with f := w.f ++ l }

/-- The outcome of an emitter that started on `w` and has the trace `r`. -/
def emit (w : BsvWriter) : Trace → Outcome
  | .ok l => .ok (w.append l)
  | .error (e, l) => .error (e, w.append l)

/-- Trace of one emitter followed by another. -/
def Trace.seq (a b : Trace) : Trace :=
  match a with
  | .error x => .error x
  | .ok l =>
    match b with
    | .ok l' => .ok (l ++ l')
    | .error (e, l') => .error (e, l ++ l')

/-- Trace of a loop whose round for `x` has the trace `act x`. -/
def Trace.all {α : Type} (act : α → Trace) : List α → Trace
  | [] => .ok []
  | x :: xs => (act x).seq (Trace.all act xs)

/-- Trace of the body of the loop over `ig.second` in `generate_interface`. -/
def interface_method_trace (t : PortTables) (g p : String) : Trace :=
  match t.port_map.map_at p with
  | .error e => .error (e, [])
  | .ok id =>
    match t.port_sizes.map_at p with
    | .error e => .error (e, [])
    | .ok size =>
      match substr p (g.length + 1) with
      | .error e => .error (e, [])
      | .ok sig =>
        if direction_of id.wire = "input" then
          .ok ["   method Action " ++ sig ++ "(Bit#(" ++ fmt_lu size ++ ") v);\n"]
        else if direction_of id.wire = "output" then
          .ok ["   method Bit#(" ++ fmt_lu size ++ ") " ++ sig ++ "();\n"]
        else .ok []

/-- Trace of one interface block. -/
def interface_group_trace (t : PortTables) (ig : String × List String) : Trace :=
  Trace.seq (.ok ["(* always_ready, always_enabled *)\n", "interface " ++ to_type_name ig.1 ++ ";\n"])
    (Trace.seq (Trace.all (interface_method_trace t ig.1) ig.2) (.ok ["endinterface\n"]))

/-- The field of the aggregate interface for one group. -/
def aggregate_field (ig : String × List String) : String :=
  "    interface " ++ to_type_name ig.1 ++ " " ++ ig.1 ++ ";\n"

/-- The aggregate interface block for the group map `igs`. -/
def aggregate_chunks (igs : StdMap (List String)) (interface : String) : List String :=
  ["(* always_ready, always_enabled *)\n", "interface " ++ to_type_name interface ++ ";\n"]
    ++ igs.map aggregate_field ++ ["endinterface\n"]

/-- Trace of `generate_interface` once the group map is `igs`. -/
def interface_trace (t : PortTables) (igs : StdMap (List String)) (interface : String) :
    Trace :=
  Trace.seq (Trace.all (interface_group_trace t) igs) (.ok (aggregate_chunks igs interface))

/-- Trace of the body of the loop over `signals` in `generate_instance`. -/
def instance_signal_trace (portmap : StdMap Port) (g s : String) : Trace :=
  match portmap.map_at s with
  | .error e => .error (e, [])
  | .ok id =>
    match substr s (g.length + 1) with
    | .error e => .error (e, [])
    | .ok name =>
      if direction_of id.wire = "input" then
        .ok ["        method " ++ name ++ "(" ++ name ++ ") enable((*in_high*) EN_"
          ++ name ++ ");\n"]
      else if direction_of id.wire = "output" then
        .ok ["        method " ++ name ++ " " ++ name ++ "();\n"]
      else if direction_of id.wire = "inout" then
        .ok ["        inout " ++ name ++ ";\n"]
      else .ok []

/-- Trace of one binding block, for the group `g` with the members
`signals`. -/
def instance_trace (portmap : StdMap Port) (g : String) (signals : List String) : Trace :=
  Trace.seq (.ok ["    interface " ++ to_type_name g ++ " " ++ g ++ ";\n"])
    (Trace.seq (Trace.all (instance_signal_trace portmap g) signals)
      (.ok ["    endinterface\n"]))

/-- One of the two name lists of the schedule: the names, each after eight
blanks, with `",\n"` between two of them. -/
def name_chunks (names : List String) : List String :=
  List.intersperse ",\n" (names.map (fun n => "        " ++ n))

/-- The chunks of the schedule over the port names `names`. -/
def schedule_chunks (names : List String) : List String :=
  ["    schedule(\n"] ++ name_chunks names ++ ["\n    ) CF (\n"] ++ name_chunks names
    ++ ["\n    );\n"]

/-- The chunks of the wrapper header and of the clock and reset bindings. -/
def header_chunks (clocks resets : List String) (interface name : String) : List String :=
  ["import \"BVI\" " ++ name ++ "=\n", "module mk" ++ interface ++ "#("]
    ++ clocks.map (fun c => "Clock " ++ c ++ ", ")
    ++ List.intersperse ", " (resets.map (fun r => "Reset " ++ r))
    ++ [")", "(" ++ interface ++ ");\n"]
    ++ clocks.map (fun c => "    input_clock " ++ c ++ "() = " ++ c ++ ";\n")
    ++ resets.map (fun r => "    input_reset " ++ r ++ "() = " ++ r ++ ";\n")

/-- Trace of `write_module` once the group map is `igs`. -/
def module_trace (w : BsvWriter) (m : Module) (igs : StdMap (List String)) : Trace :=
  Trace.seq (interface_trace (collect_ports w m) igs w.interface)
    (Trace.seq (.ok (header_chunks w.clocks w.resets w.interface m.name))
      (Trace.seq (Trace.all (fun ig => instance_trace (instance_portmap m) ig.1 ig.2) igs)
        (.ok (schedule_chunks ((regular_ports w m).map Port.name) ++ ["endmodule\n"]))))

/-- Strictly ascending keys: the shape of a `std::map`. -/
def sorted_keys {α : Type} (m : StdMap α) : Prop :=
  List.Pairwise (fun a b => str_lt a.1 b.1 = true) m

/-- What an outcome shows in the stream: the chunks written, and the
exception if one was thrown. -/
def Outcome.stream (r : Outcome) : Except (Err × List String) (List String) :=
  match r with
  | .ok w => .ok w.f
  | .error (e, w) => .error (e, w.f)

/-- What one member port gives to its group: the direction of the port, the
method name and the width. -/
structure Decl where
  direction : String
  name : String
  size : Nat
  deriving DecidableEq, Repr

/-- The declaration for the member `p` of the group `g`: direction and width
of the first port of the module with the name `p`, and `p` without its first
`|g|+1` characters as the method name. -/
def decl_of (m : Module) (g p : String) : Decl :=
  match m.ports.find? (fun n => n.name = p) with
  | some port =>
    { direction := direction_of port.wire, name := ⟨p.data.drop (g.length + 1)⟩,
      size := port.wire.size }
  | none => { direction := "", name := ⟨p.data.drop (g.length + 1)⟩, size := 0 }

/-- The method name a declaration stands for: an input and an output give a
method, an inout gives none. -/
def Decl.method_name (d : Decl) : Option String :=
  if d.direction = "input" ∨ d.direction = "output" then some d.name else none

/-- Interface side of a declaration, after the specification: an action
method with one bit-vector parameter for an input, a value method for an
output, no line for an inout. -/
def spec_interface_lines (d : Decl) : List String :=
  match d.method_name with
  | some n =>
    if d.direction = "input" then
      ["   method Action " ++ n ++ "(Bit#(" ++ fmt_lu d.size ++ ") v);\n"]
    else ["   method Bit#(" ++ fmt_lu d.size ++ ") " ++ n ++ "();\n"]
  | none => []

/-- Binding side of a declaration, after the specification: a `method` line
with an enable for an input, a `method` line for an output, an `inout` line
for an inout. -/
def spec_binding_lines (d : Decl) : List String :=
  match d.method_name with
  | some n =>
    if d.direction = "input" then
      ["        method " ++ n ++ "(" ++ n ++ ") enable((*in_high*) EN_" ++ n ++ ");\n"]
    else ["        method " ++ n ++ " " ++ n ++ "();\n"]
  | none => if d.direction = "inout" then ["        inout " ++ d.name ++ ";\n"] else []

/-- Interface block of the group `g` with the declarations `decls`, after
the specification. -/
def spec_interface_block (g : String) (decls : List Decl) : List String :=
  ["(* always_ready, always_enabled *)\n", "interface " ++ to_type_name g ++ ";\n"]
    ++ decls.flatMap spec_interface_lines ++ ["endinterface\n"]

/-- Binding block of the group `g` with the declarations `decls`, after the
specification. -/
def spec_binding_block (g : String) (decls : List Decl) : List String :=
  ["    interface " ++ to_type_name g ++ " " ++ g ++ ";\n"]
    ++ decls.flatMap spec_binding_lines ++ ["    endinterface\n"]

/-! ## The scenario of the specification -/

/-- Module `m`: `clk`, `rst`, `foo_data` (input, 8), `foo_valid` (output, 1),
`bar_en` (input, 1). -/
def scenario_module : Module :=
  { name := "m",
    ports := [
      { name := "clk", wire := { port_input := true, port_output := false, size := 1 } },
      { name := "rst", wire := { port_input := true, port_output := false, size := 1 } },
      { name := "foo_data", wire := { port_input := true, port_output := false, size := 8 } },
      { name := "foo_valid", wire := { port_input := false, port_output := true, size := 1 } },
      { name := "bar_en", wire := { port_input := true, port_output := false, size := 1 } }] }

/-- Writer for `clocks=[clk]`, `resets=[rst]`, `groups=[foo, bar]`,
`interfaceName=Top`. -/
def scenario_writer : BsvWriter :=
  BsvWriter.new false ["clk"] ["rst"] [] ["foo", "bar"] "Top"

/-- A module whose only port has the prefix `foo` inside its name, not at
the front. -/
def inner_match_module : Module :=
  { name := "m",
    ports := [
      { name := "a_foo_x", wire := { port_input := true, port_output := false, size := 1 } }] }

/-- Writer for the single group `foo`, without clocks and resets. -/
def foo_writer : BsvWriter := BsvWriter.new false [] [] [] ["foo"] "Top"

/-- First of two modules processed in one run: its port is `foo_a`. -/
def first_module : Module :=
  { name := "a",
    ports := [
      { name := "foo_a", wire := { port_input := true, port_output := false, size := 1 } }] }

/-- Second of two modules processed in one run: its port is `foo_b`. -/
def second_module : Module :=
  { name := "b",
    ports := [
      { name := "foo_b", wire := { port_input := true, port_output := false, size := 1 } }] }

/-- Writer of the scenario with the clock `clk2`, which is no port of the
scenario module. -/
def clk2_writer : BsvWriter :=
  BsvWriter.new false ["clk2"] ["rst"] [] ["foo", "bar"] "Top"

/-- A module with one port in the group `foo` and one port in no group. -/
def spare_module : Module :=
  { name := "m",
    ports := [
      { name := "foo_a", wire := { port_input := true, port_output := false, size := 1 } },
      { name := "spare", wire := { port_input := true, port_output := false, size := 1 } }] }

/-- Writer for the groups `foo` and `bar`, without clocks and resets. -/
def foo_bar_writer : BsvWriter := BsvWriter.new false [] [] [] ["foo", "bar"] "Top"

/-- The writer after `write_module` on `foo_writer` and `first_module`. -/
def first_module_output : BsvWriter :=
  { foo_writer with
    f := ["(* always_ready, always_enabled *)\n", "interface Foo;\n",
      "   method Action a(Bit#(1) v);\n", "endinterface\n",
      "(* always_ready, always_enabled *)\n", "interface Top;\n",
      "    interface Foo foo;\n", "endinterface\n",
      "import \"BVI\" a=\n", "module mkTop#(", ")", "(Top);\n",
      "    interface Foo foo;\n", "        method a(a) enable((*in_high*) EN_a);\n",
      "    endinterface\n",
      "    schedule(\n", "        foo_a", "\n    ) CF (\n", "        foo_a", "\n    );\n",
      "endmodule\n"],
    interface_groups := [("foo", ["foo_a"])] }

/-- Writer with the clock `clk` and no reset, for the group `foo`. -/
def clock_only_writer : BsvWriter := BsvWriter.new false ["clk"] [] [] ["foo"] "Top"

/-- A module with the clock port `clk` and the port `foo_a`. -/
def clock_module : Module :=
  { name := "m",
    ports := [
      { name := "clk", wire := { port_input := true, port_output := false, size := 1 } },
      { name := "foo_a", wire := { port_input := true, port_output := false, size := 1 } }] }

/-- Writer with the interface name `top`, for the group `foo`. -/
def lower_writer : BsvWriter := BsvWriter.new false [] [] [] ["foo"] "top"

/-- Writer with the clock `foo_clk`, whose name contains the prefix `foo`. -/
def foo_clk_writer : BsvWriter := BsvWriter.new false ["foo_clk"] [] [] ["foo"] "Top"

/-- A module with the clock port `foo_clk`, the port `foo_clk2`, whose name
contains the clock name, and the port `foo_a`. -/
def foo_clk_module : Module :=
  { name := "m",
    ports := [
      { name := "foo_clk", wire := { port_input := true, port_output := false, size := 1 } },
      { name := "foo_clk2", wire := { port_input := true, port_output := false, size := 1 } },
      { name := "foo_a", wire := { port_input := true, port_output := false, size := 1 } }] }

/-- A module whose only port has the name `foo`, equal to a prefix. -/
def exact_module : Module :=
  { name := "m",
    ports := [
      { name := "foo", wire := { port_input := true, port_output := false, size := 1 } }] }

/-- Writer for the groups `foo` and `Foo`. -/
def case_writer : BsvWriter := BsvWriter.new false [] [] [] ["foo", "Foo"] "Top"

/-- A module with one port for the group `foo` and one for the group `Foo`. -/
def case_module : Module :=
  { name := "m",
    ports := [
      { name := "foo_a", wire := { port_input := true, port_output := false, size := 1 } },
      { name := "Foo_b", wire := { port_input := false, port_output := true, size := 2 } }] }

/-- Writer with the prefix `foo` configured twice. -/
def foo_twice_writer : BsvWriter := BsvWriter.new false [] [] [] ["foo", "foo"] "Top"

/-- A module with an input, an output and an inout port for the group `foo`. -/
def io_module : Module :=
  { name := "m",
    ports := [
      { name := "foo_in", wire := { port_input := true, port_output := false, size := 4 } },
      { name := "foo_out", wire := { port_input := false, port_output := true, size := 2 } },
      { name := "foo_io", wire := { port_input := true, port_output := true, size := 1 } }] }

/-! ## The order on strings -/

theorem char_toNat_inj {a b : Char} (h : a.toNat = b.toNat) : a = b := by
  have := congrArg Char.ofNat h
  simpa using this

theorem lt_chars_irrefl (a : List Char) : lt_chars a a = false := by
  induction a with
  | nil => rfl
  | cons c cs ih => simp [lt_chars, ih]

theorem lt_chars_trans {a b c : List Char} (hab : lt_chars a b = true)
    (hbc : lt_chars b c = true) : lt_chars a c = true := by
  induction a generalizing b c with
  | nil =>
    cases b with
    | nil => simp [lt_chars] at hab
    | cons y ys =>
      cases c with
      | nil => simp [lt_chars] at hbc
      | cons z zs => simp [lt_chars]
  | cons x xs ih =>
    cases b with
    | nil => simp [lt_chars] at hab
    | cons y ys =>
      cases c with
      | nil => simp [lt_chars] at hbc
      | cons z zs =>
        simp only [lt_chars] at hab hbc ⊢
        split_ifs at hab hbc ⊢ <;> first | rfl | omega | exact ih hab hbc

theorem lt_chars_total {a b : List Char} (h : a ≠ b) :
    lt_chars a b = true ∨ lt_chars b a = true := by
  induction a generalizing b with
  | nil =>
    cases b with
    | nil => exact absurd rfl h
    | cons y ys => simp [lt_chars]
  | cons x xs ih =>
    cases b with
    | nil => simp [lt_chars]
    | cons y ys =>
      simp only [lt_chars]
      by_cases h1 : x.toNat < y.toNat
      · simp [h1]
      · by_cases h2 : y.toNat < x.toNat
        · simp [h2]
        · have hxy : x = y := char_toNat_inj (by omega)
          subst hxy
          have hne : xs ≠ ys := fun e => h (by rw [e])
          simpa [h1] using ih hne

theorem str_lt_irrefl (a : String) : str_lt a a = false := lt_chars_irrefl a.data

theorem str_lt_trans {a b c : String} (hab : str_lt a b = true) (hbc : str_lt b c = true) :
    str_lt a c = true := lt_chars_trans hab hbc

theorem str_lt_total {a b : String} (h : a ≠ b) : str_lt a b = true ∨ str_lt b a = true := by
  apply lt_chars_total
  intro e
  exact h (String.ext e)

theorem str_lt_asymm {a b : String} (hab : str_lt a b = true) : str_lt b a = false := by
  cases hba : str_lt b a with
  | false => rfl
  | true =>
    have := str_lt_trans hab hba
    rw [str_lt_irrefl] at this
    exact absurd this (by simp)

theorem str_lt_ne {a b : String} (hab : str_lt a b = true) : a ≠ b := by
  intro e
  subst e
  rw [str_lt_irrefl] at hab
  exact absurd hab (by simp)

/-! ## Lookup in a map after an update -/

theorem StdMap.find_emplace {α : Type} (m : StdMap α) (k k' : String) (v : α) :
    (m.emplace k v).find k' = if k' = k then some ((m.find k).getD v) else m.find k' := by
  induction m with
  | nil =>
    by_cases h : k' = k
    · simp [StdMap.emplace, StdMap.find, h, str_lt_irrefl]
    · simp [StdMap.emplace, StdMap.find, h]
  | cons e rest ih =>
    obtain ⟨k0, x⟩ := e
    simp only [StdMap.emplace]
    by_cases h1 : str_lt k k0 = true
    · simp only [h1, if_true, StdMap.find]
      by_cases h : k' = k
      · subst h
        simp [str_lt_irrefl, h1]
      · simp only [h, if_false]
        by_cases h2 : str_lt k' k = true
        · simp [h2, str_lt_trans h2 h1]
        · simp [h2]
    · by_cases h3 : k = k0
      · subst h3
        simp only [str_lt_irrefl, if_true, StdMap.find]
        by_cases h : k' = k
        · subst h
          simp [str_lt_irrefl]
        · simp [h]
      · simp only [h1, h3, if_false, StdMap.find, ih]
        have h4 : str_lt k0 k = true := by
          rcases str_lt_total h3 with h5 | h5
          · exact absurd h5 h1
          · exact h5
        by_cases h : k' = k
        · subst h
          simp [h1, h3]
        · simp only [h, if_false]

theorem StdMap.find_modify {α : Type} (m : StdMap α) (k k' : String) (fn : α → α) :
    (m.modify k fn).find k' = if k' = k then (m.find k).map fn else m.find k' := by
  induction m with
  | nil => simp [StdMap.modify, StdMap.find]
  | cons e rest ih =>
    obtain ⟨k0, x⟩ := e
    simp only [StdMap.modify]
    by_cases h1 : str_lt k k0 = true
    · simp only [h1, if_true, StdMap.find]
      by_cases h : k' = k
      · subst h
        simp [h1]
      · simp [h]
    · by_cases h3 : k = k0
      · subst h3
        simp only [str_lt_irrefl, if_true, StdMap.find]
        by_cases h : k' = k
        · subst h
          simp [str_lt_irrefl]
        · simp [h]
      · simp only [h1, h3, if_false, StdMap.find, ih]
        by_cases h : k' = k
        · subst h
          simp [h1, h3]
        · simp only [h, if_false]

theorem members_push_back (m : StdMap (List String)) (g k p : String) :
    members ((m.index g).modify g (fun v => v ++ [p])) k
      = if k = g then members m g ++ [p] else members m k := by
  unfold members StdMap.index
  simp only [StdMap.find_modify, StdMap.find_emplace]
  by_cases h : k = g
  · subst h
    cases hm : m.find k <;> simp
    rfl
  · simp [h]

/-! ## Substring search -/

theorem find_from_isSome (g l : List Char) (i : Nat) :
    (find_from g l i).isSome = true ↔ ∃ s t, l = s ++ g ++ t := by
  induction l generalizing i with
  | nil =>
    cases g with
    | nil => simp [find_from]
    | cons a as => simp [find_from]
  | cons c cs ih =>
    unfold find_from
    by_cases hp : g.isPrefixOf (c :: cs) = true
    · rw [if_pos hp]
      obtain ⟨t, ht⟩ := List.isPrefixOf_iff_prefix.mp hp
      simp only [Option.isSome_some, true_iff]
      exact ⟨[], t, by simp [ht]⟩
    · rw [if_neg hp, ih]
      constructor
      · rintro ⟨s, t, e⟩
        exact ⟨c :: s, t, by simp [e]⟩
      · rintro ⟨s, t, e⟩
        cases s with
        | nil =>
          exfalso
          apply hp
          apply List.isPrefixOf_iff_prefix.mpr
          exact ⟨t, by simpa using e.symm⟩
        | cons a s' =>
          simp only [List.cons_append, List.cons.injEq] at e
          exact ⟨s', t, e.2⟩

/-- The test `p.find(g) != npos` holds exactly when `g` occurs in `p` as a
substring. -/
theorem find_isSome_iff (p g : String) :
    (find p g).isSome = true ↔ ∃ s t, p.data = s ++ g.data ++ t :=
  find_from_isSome g.data p.data 0

/-! ## Sorting -/

theorem ordered_insert_perm (x : String) (l : List String) :
    List.Perm (ordered_insert x l) (x :: l) := by
  induction l with
  | nil => exact List.Perm.refl _
  | cons y ys ih =>
    unfold ordered_insert
    split_ifs
    · exact (List.Perm.cons y ih).trans (List.Perm.swap x y ys)
    · exact List.Perm.refl _

theorem std_sort_perm (l : List String) : List.Perm (std_sort l) l := by
  induction l with
  | nil => exact List.Perm.refl _
  | cons x xs ih =>
    show List.Perm (ordered_insert x (std_sort xs)) (x :: xs)
    exact (ordered_insert_perm x _).trans (List.Perm.cons x ih)

theorem std_sort_count (l : List String) (k : String) : (std_sort l).count k = l.count k :=
  (std_sort_perm l).count_eq k

/-! ## What `regroup_ports` stores -/

theorem members_regroup_step (p k g : String) (w : BsvWriter) :
    members (regroup_step p w g).interface_groups k
      = members w.interface_groups k
        ++ (if (find p k).isSome ∧ k = g then [p] else []) := by
  unfold regroup_step
  by_cases hf : (find p g).isSome = true
  · rw [if_pos hf]
    simp only [members_push_back]
    by_cases h : k = g
    · subst h
      simp [hf]
    · simp [h]
  · rw [if_neg hf]
    by_cases h : k = g
    · subst h
      simp [hf]
    · simp [h]

theorem members_regroup_port (p k : String) (gs : List String) (w : BsvWriter) :
    members (regroup_port gs w p).interface_groups k
      = members w.interface_groups k
        ++ (if (find p k).isSome then List.replicate (gs.count k) p else []) := by
  unfold regroup_port
  induction gs generalizing w with
  | nil => simp
  | cons g gs ih =>
    rw [List.foldl_cons, ih, members_regroup_step]
    by_cases hf : (find p k).isSome = true
    · by_cases h : k = g
      · subst h
        simp [hf, List.replicate_succ]
      · have h' : ¬ g = k := fun e => h e.symm
        simp [hf, h, List.count_cons, h']
    · simp [hf]

theorem members_foldl_regroup_port (k : String) (gs ps : List String) (w : BsvWriter) :
    members (ps.foldl (regroup_port gs) w).interface_groups k
      = members w.interface_groups k ++ (ps.map (appended gs k)).flatten := by
  induction ps generalizing w with
  | nil => simp
  | cons p ps ih =>
    rw [List.foldl_cons, ih, members_regroup_port]
    simp [appended]

theorem members_regroup_ports (k : String) (groups ports : List String) (w : BsvWriter) :
    members (regroup_ports w groups ports).interface_groups k
      = members w.interface_groups k ++ (ports.map (appended groups k)).flatten := by
  unfold regroup_ports
  by_cases he : groups.isEmpty = true
  · rw [if_pos he]
    have hn : groups = [] := List.isEmpty_iff.mp he
    subst hn
    have : (ports.map (appended [] k)).flatten = [] := by
      induction ports with
      | nil => rfl
      | cons p ps ih => simp [appended, ih]
    rw [this, List.append_nil]
  · rw [if_neg he]
    simp only [members_foldl_regroup_port]
    have : appended (std_sort groups) k = appended groups k := by
      funext p
      simp [appended, std_sort_count]
    rw [this]

/-! ## The tables built from the ports -/

theorem foldl_collect_port_ports (w : BsvWriter) (ps : List Port) (t : PortTables) :
    (ps.foldl (collect_port w) t).ports
      = t.ports ++ (ps.filter (fun n => !is_clock_or_reset w n.name)).map Port.name := by
  induction ps generalizing t with
  | nil => simp
  | cons n ps ih =>
    rw [List.foldl_cons, ih]
    unfold collect_port
    cases h : is_clock_or_reset w n.name <;> simp [h]

theorem foldl_collect_port_map (w : BsvWriter) (ps : List Port) (t : PortTables) (s : String) :
    (ps.foldl (collect_port w) t).port_map.find s
      = (t.port_map.find s).or
          ((ps.filter (fun n => !is_clock_or_reset w n.name)).find? (fun n => n.name = s)) := by
  induction ps generalizing t with
  | nil => simp
  | cons n ps ih =>
    rw [List.foldl_cons, ih]
    unfold collect_port
    cases h : is_clock_or_reset w n.name
    · have hf : (n :: ps).filter (fun n => !is_clock_or_reset w n.name)
          = n :: ps.filter (fun n => !is_clock_or_reset w n.name) := by simp [h]
      rw [hf]
      simp only [Bool.false_eq_true, if_false, StdMap.find_emplace, List.find?_cons]
      by_cases hs : s = n.name
      · subst hs
        cases ht : t.port_map.find n.name <;> simp
      · have hs' : ¬ n.name = s := fun e => hs e.symm
        simp [hs, hs']
    · simp [h]

theorem foldl_collect_port_sizes (w : BsvWriter) (ps : List Port) (t : PortTables)
    (s : String) :
    (ps.foldl (collect_port w) t).port_sizes.find s
      = (t.port_sizes.find s).or
          (((ps.filter (fun n => !is_clock_or_reset w n.name)).find?
            (fun n => n.name = s)).map (fun n => n.wire.size)) := by
  induction ps generalizing t with
  | nil => simp
  | cons n ps ih =>
    rw [List.foldl_cons, ih]
    unfold collect_port
    cases h : is_clock_or_reset w n.name
    · have hf : (n :: ps).filter (fun n => !is_clock_or_reset w n.name)
          = n :: ps.filter (fun n => !is_clock_or_reset w n.name) := by simp [h]
      rw [hf]
      simp only [Bool.false_eq_true, if_false, StdMap.find_emplace, List.find?_cons]
      by_cases hs : s = n.name
      · subst hs
        cases ht : t.port_sizes.find n.name <;> simp
      · have hs' : ¬ n.name = s := fun e => hs e.symm
        simp [hs, hs']
    · simp [h]

theorem collect_ports_ports (w : BsvWriter) (m : Module) :
    (collect_ports w m).ports = (regular_ports w m).map Port.name := by
  unfold collect_ports regular_ports
  rw [foldl_collect_port_ports]
  rfl

theorem collect_ports_map (w : BsvWriter) (m : Module) (s : String) :
    (collect_ports w m).port_map.find s
      = (regular_ports w m).find? (fun n => n.name = s) := by
  unfold collect_ports regular_ports
  rw [foldl_collect_port_map]
  rfl

theorem collect_ports_sizes (w : BsvWriter) (m : Module) (s : String) :
    (collect_ports w m).port_sizes.find s
      = ((regular_ports w m).find? (fun n => n.name = s)).map (fun n => n.wire.size) := by
  unfold collect_ports regular_ports
  rw [foldl_collect_port_sizes]
  rfl

theorem foldl_emplace_find (ps : List Port) (acc : StdMap Port) (s : String) :
    (ps.foldl (fun m p => m.emplace p.name p) acc).find s
      = (acc.find s).or (ps.find? (fun n => n.name = s)) := by
  induction ps generalizing acc with
  | nil => simp
  | cons n ps ih =>
    rw [List.foldl_cons, ih]
    simp only [StdMap.find_emplace, List.find?_cons]
    by_cases hs : s = n.name
    · subst hs
      cases ht : acc.find n.name <;> simp
    · have hs' : ¬ n.name = s := fun e => hs e.symm
      simp [hs, hs']

theorem instance_portmap_find (m : Module) (s : String) :
    (instance_portmap m).find s = m.ports.find? (fun n => n.name = s) := by
  unfold instance_portmap
  rw [foldl_emplace_find]
  rfl

/-! ## Loops -/

theorem for_each_congr {α : Type} (body body' : BsvWriter → α → Outcome) (xs : List α)
    (h : ∀ x ∈ xs, ∀ w, body w x = body' w x) (w : BsvWriter) :
    for_each body xs w = for_each body' xs w := by
  induction xs generalizing w with
  | nil => rfl
  | cons x xs ih =>
    simp only [for_each]
    rw [h x (List.mem_cons_self x xs) w]
    cases body' w x with
    | error e => rfl
    | ok w' => exact ih (fun y hy => h y (List.mem_cons_of_mem x hy)) w'

theorem foldl_filter_noop {α β : Type} (f : β → α → β) (q : α → Bool) (xs : List α)
    (h : ∀ b x, q x = false → f b x = b) (b : β) :
    (xs.filter q).foldl f b = xs.foldl f b := by
  induction xs generalizing b with
  | nil => rfl
  | cons x xs ih =>
    cases hq : q x
    · rw [List.filter_cons_of_neg (by simp [hq]), List.foldl_cons, h b x hq, ih]
    · rw [List.filter_cons_of_pos hq, List.foldl_cons, List.foldl_cons, ih]

/-! ## Ports outside every group leave the group map alone -/

theorem mem_std_sort {l : List String} {g : String} : g ∈ std_sort l ↔ g ∈ l :=
  (std_sort_perm l).mem_iff

theorem in_some_group_iff (groups : List String) (p : String) :
    in_some_group groups p = true ↔ ∃ g ∈ groups, (find p g).isSome = true := by
  simp [in_some_group]

theorem regroup_port_noop (gs : List String) (w : BsvWriter) (p : String)
    (h : ∀ g ∈ gs, (find p g).isSome = false) : regroup_port gs w p = w := by
  unfold regroup_port
  induction gs generalizing w with
  | nil => rfl
  | cons g gs ih =>
    rw [List.foldl_cons]
    have hg : regroup_step p w g = w := by
      unfold regroup_step
      rw [h g (List.mem_cons_self g gs)]
      simp
    rw [hg]
    exact ih w (fun g' hg' => h g' (List.mem_cons_of_mem g hg'))

theorem regroup_ports_filter (w : BsvWriter) (groups ports : List String)
    (keep : String → Bool) (hk : ∀ s, in_some_group groups s = true → keep s = true) :
    regroup_ports w groups (ports.filter keep) = regroup_ports w groups ports := by
  unfold regroup_ports
  split_ifs
  · rfl
  · apply foldl_filter_noop
    intro b x hx
    apply regroup_port_noop
    intro g hg
    cases hf : (find x g).isSome
    · rfl
    · have : keep x = true :=
        hk x ((in_some_group_iff groups x).mpr ⟨g, mem_std_sort.mp hg, hf⟩)
      rw [hx] at this
      exact absurd this (by simp)

/-! ## Every stored member contains a configured prefix -/

theorem StdMap.mem_emplace {α : Type} (m : StdMap α) (k : String) (v : α) (e : String × α)
    (he : e ∈ m.emplace k v) : e ∈ m ∨ e = (k, v) := by
  induction m with
  | nil =>
    simp only [StdMap.emplace, List.mem_singleton] at he
    exact Or.inr he
  | cons e0 rest ih =>
    obtain ⟨k0, x⟩ := e0
    simp only [StdMap.emplace] at he
    split_ifs at he
    · rcases List.mem_cons.mp he with h | h
      · exact Or.inr h
      · exact Or.inl h
    · exact Or.inl he
    · rcases List.mem_cons.mp he with h | h
      · exact Or.inl (h ▸ List.mem_cons_self _ _)
      · rcases ih h with h' | h'
        · exact Or.inl (List.mem_cons_of_mem _ h')
        · exact Or.inr h'

theorem StdMap.mem_modify {α : Type} (m : StdMap α) (k : String) (fn : α → α)
    (e : String × α) (he : e ∈ m.modify k fn) :
    e ∈ m ∨ ∃ v, (k, v) ∈ m ∧ e = (k, fn v) := by
  induction m with
  | nil => simp [StdMap.modify] at he
  | cons e0 rest ih =>
    obtain ⟨k0, x⟩ := e0
    simp only [StdMap.modify] at he
    split_ifs at he with h1 h2
    · exact Or.inl he
    · rcases List.mem_cons.mp he with h | h
      · exact Or.inr ⟨x, by rw [h2]; exact List.mem_cons_self _ _, by rw [h, h2]⟩
      · exact Or.inl (List.mem_cons_of_mem _ h)
    · rcases List.mem_cons.mp he with h | h
      · exact Or.inl (h ▸ List.mem_cons_self _ _)
      · rcases ih h with h' | ⟨v, hv, hev⟩
        · exact Or.inl (List.mem_cons_of_mem _ h')
        · exact Or.inr ⟨v, List.mem_cons_of_mem _ hv, hev⟩

theorem regroup_step_all_members (P : String → String → Prop) (p g : String)
    (w : BsvWriter) (hw : ∀ e ∈ w.interface_groups, ∀ s ∈ e.2, P e.1 s)
    (hp : (find p g).isSome = true → P g p) :
    ∀ e ∈ (regroup_step p w g).interface_groups, ∀ s ∈ e.2, P e.1 s := by
  unfold regroup_step
  by_cases hf : (find p g).isSome = true
  · rw [if_pos hf]
    intro e he s hs
    rcases StdMap.mem_modify _ _ _ _ he with h | ⟨v, hv, hev⟩
    · rcases StdMap.mem_emplace _ _ _ _ h with h' | h'
      · exact hw e h' s hs
      · rw [h'] at hs
        exact absurd hs (List.not_mem_nil s)
    · rw [hev] at hs ⊢
      rcases List.mem_append.mp hs with h1 | h1
      · rcases StdMap.mem_emplace _ _ _ _ hv with h' | h'
        · exact hw _ h' s h1
        · have : v = [] := (Prod.mk.inj h').2
          rw [this] at h1
          exact absurd h1 (List.not_mem_nil s)
      · rw [List.mem_singleton.mp h1]
        exact hp hf
  · rw [if_neg hf]
    exact hw

theorem regroup_port_all_members (P : String → String → Prop) (p : String)
    (gs : List String) (w : BsvWriter)
    (hw : ∀ e ∈ w.interface_groups, ∀ s ∈ e.2, P e.1 s)
    (hp : ∀ g ∈ gs, (find p g).isSome = true → P g p) :
    ∀ e ∈ (regroup_port gs w p).interface_groups, ∀ s ∈ e.2, P e.1 s := by
  unfold regroup_port
  induction gs generalizing w with
  | nil => exact hw
  | cons g gs ih =>
    rw [List.foldl_cons]
    apply ih
    · exact regroup_step_all_members P p g w hw (hp g (List.mem_cons_self g gs))
    · exact fun g' hg' => hp g' (List.mem_cons_of_mem g hg')

theorem regroup_ports_entries (w : BsvWriter) (groups ports : List String)
    (hw : w.interface_groups = []) :
    ∀ e ∈ (regroup_ports w groups ports).interface_groups,
      ∀ s ∈ e.2, s ∈ ports ∧ e.1 ∈ groups ∧ (find s e.1).isSome = true := by
  unfold regroup_ports
  split_ifs
  · rw [hw]
    intro e he
    exact absurd he (List.not_mem_nil e)
  · have key : ∀ (ps : List String) (w' : BsvWriter),
        (∀ e ∈ w'.interface_groups, ∀ s ∈ e.2,
          s ∈ ports ∧ e.1 ∈ groups ∧ (find s e.1).isSome = true) →
        (∀ p ∈ ps, p ∈ ports) →
        ∀ e ∈ (ps.foldl (regroup_port (std_sort groups)) w').interface_groups,
          ∀ s ∈ e.2, s ∈ ports ∧ e.1 ∈ groups ∧ (find s e.1).isSome = true := by
      intro ps
      induction ps with
      | nil => intro w' hw' _; exact hw'
      | cons p ps ih =>
        intro w' hw' hps
        rw [List.foldl_cons]
        apply ih
        · apply regroup_port_all_members
            (fun k s => s ∈ ports ∧ k ∈ groups ∧ (find s k).isSome = true) p _ w' hw'
          intro g hg hf
          exact ⟨hps p (List.mem_cons_self p ps), mem_std_sort.mp hg, hf⟩
        · exact fun q hq => hps q (List.mem_cons_of_mem p hq)
    apply key ports w
    · rw [hw]
      intro e he
      exact absurd he (List.not_mem_nil e)
    · exact fun p hp => hp

theorem regroup_ports_all_members (w : BsvWriter) (groups ports : List String)
    (hw : w.interface_groups = []) :
    ∀ e ∈ (regroup_ports w groups ports).interface_groups,
      ∀ s ∈ e.2, s ∈ ports ∧ in_some_group groups s = true := by
  intro e he s hs
  obtain ⟨h1, h2, h3⟩ := regroup_ports_entries w groups ports hw e he s hs
  exact ⟨h1, (in_some_group_iff groups s).mpr ⟨e.1, h2, h3⟩⟩

/-! ## Ports outside every group do not reach the emitters -/

theorem find?_filter_name (ps : List Port) (keep : String → Bool) (s : String)
    (hs : keep s = true) :
    (ps.filter (fun n => keep n.name)).find? (fun n => n.name = s)
      = ps.find? (fun n => n.name = s) := by
  induction ps with
  | nil => rfl
  | cons n ps ih =>
    by_cases hn : n.name = s
    · have hk : keep n.name = true := by rw [hn]; exact hs
      simp [List.filter_cons, hs, hn]
    · cases hk : keep n.name
      · simp [List.filter_cons, hk, hn, ih]
      · simp [List.filter_cons, hk, hn, ih]

theorem regular_ports_keep_ports (w : BsvWriter) (keep : String → Bool) (m : Module) :
    regular_ports w (keep_ports keep m)
      = (regular_ports w m).filter (fun n => keep n.name) := by
  unfold regular_ports keep_ports
  simp only [List.filter_filter]
  congr 1
  funext n
  exact Bool.and_comm _ _

theorem generate_interface_method_congr (t t' : PortTables) (g p : String) (w : BsvWriter)
    (h1 : t.port_map.find p = t'.port_map.find p)
    (h2 : t.port_sizes.find p = t'.port_sizes.find p) :
    generate_interface_method t g w p = generate_interface_method t' g w p := by
  unfold generate_interface_method StdMap.map_at
  rw [h1, h2]

theorem generate_instance_signal_congr (pm pm' : StdMap Port) (g s : String) (w : BsvWriter)
    (h : pm.find s = pm'.find s) :
    generate_instance_signal pm g w s = generate_instance_signal pm' g w s := by
  unfold generate_instance_signal StdMap.map_at
  rw [h]

theorem collect_ports_keep_ports (w : BsvWriter) (keep : String → Bool) (m : Module)
    (s : String) (hs : keep s = true) :
    (collect_ports w (keep_ports keep m)).port_map.find s
        = (collect_ports w m).port_map.find s
      ∧ (collect_ports w (keep_ports keep m)).port_sizes.find s
        = (collect_ports w m).port_sizes.find s := by
  simp only [collect_ports_map, collect_ports_sizes, regular_ports_keep_ports]
  rw [find?_filter_name _ keep s hs]
  exact ⟨rfl, rfl⟩

theorem collect_ports_ports_keep_ports (w : BsvWriter) (keep : String → Bool)
    (m : Module) :
    (collect_ports w (keep_ports keep m)).ports = (collect_ports w m).ports.filter keep := by
  simp only [collect_ports_ports, regular_ports_keep_ports, List.filter_map]
  rfl

theorem generate_interface_keep_ports (w : BsvWriter) (m : Module) (i : String)
    (keep : String → Bool) (hw : w.interface_groups = [])
    (hk : ∀ s, in_some_group w.groups s = true → keep s = true) :
    generate_interface w (keep_ports keep m) i = generate_interface w m i := by
  unfold generate_interface
  simp only [collect_ports_ports_keep_ports, regroup_ports_filter _ _ _ keep hk]
  have hall := regroup_ports_all_members w w.groups (collect_ports w m).ports hw
  rw [for_each_congr (generate_interface_group (collect_ports w (keep_ports keep m)))
    (generate_interface_group (collect_ports w m))]
  intro e he w'
  unfold generate_interface_group
  simp only []
  rw [for_each_congr (generate_interface_method (collect_ports w (keep_ports keep m)) e.1)
    (generate_interface_method (collect_ports w m) e.1)]
  intro s hs w''
  have hg := hk s (hall e he s hs).2
  have hc := collect_ports_keep_ports w keep m s hg
  exact generate_interface_method_congr _ _ _ _ _ hc.1 hc.2

theorem generate_instance_keep_ports (w : BsvWriter) (keep : String → Bool) (m : Module)
    (g : String) (hw : ∀ s ∈ members (w.interface_groups.index g) g, keep s = true) :
    generate_instance w (keep_ports keep m) g = generate_instance w m g := by
  unfold generate_instance
  simp only []
  rw [for_each_congr (generate_instance_signal (instance_portmap (keep_ports keep m)) g)
    (generate_instance_signal (instance_portmap m) g)]
  intro s hs w'
  apply generate_instance_signal_congr
  rw [instance_portmap_find, instance_portmap_find]
  exact find?_filter_name m.ports keep s (hw s hs)

theorem members_index (m : StdMap (List String)) (g : String) :
    members (m.index g) g = members m g := by
  unfold members StdMap.index
  rw [StdMap.find_emplace]
  simp
  rfl

theorem mem_members_regroup_ports (w : BsvWriter) (hw : w.interface_groups = [])
    (groups ports : List String) (g p : String) :
    p ∈ members (regroup_ports w groups ports).interface_groups g
      ↔ p ∈ ports ∧ g ∈ groups ∧ (find p g).isSome = true := by
  rw [members_regroup_ports, hw]
  simp only [members, StdMap.find, Option.getD_none, List.nil_append, List.mem_flatten,
    List.mem_map]
  constructor
  · rintro ⟨l, ⟨q, hq, rfl⟩, hp⟩
    unfold appended at hp
    split_ifs at hp with hf
    · obtain ⟨hne, rfl⟩ := List.mem_replicate.mp hp
      exact ⟨hq, List.count_pos_iff.mp (Nat.pos_of_ne_zero hne), hf⟩
    · exact absurd hp (List.not_mem_nil p)
  · rintro ⟨hp, hg, hf⟩
    refine ⟨_, ⟨p, hp, rfl⟩, ?_⟩
    unfold appended
    rw [if_pos hf]
    exact List.mem_replicate.mpr ⟨Nat.pos_iff_ne_zero.mp (List.count_pos_iff.mpr hg), rfl⟩

theorem generate_instance_after_regroup (w : BsvWriter) (hw : w.interface_groups = [])
    (m : Module) (keep : String → Bool)
    (hk : ∀ s, in_some_group w.groups s = true → keep s = true) (ports out : List String)
    (g : String) :
    generate_instance ((regroup_ports w w.groups ports).append out) (keep_ports keep m) g
      = generate_instance ((regroup_ports w w.groups ports).append out) m g := by
  apply generate_instance_keep_ports
  intro s hs
  have hs' : s ∈ members ((regroup_ports w w.groups ports).interface_groups.index g) g := hs
  rw [members_index] at hs'
  obtain ⟨_, hg, hf⟩ := (mem_members_regroup_ports w hw w.groups ports g s).mp hs'
  exact hk s ((in_some_group_iff w.groups s).mpr ⟨g, hg, hf⟩)

/-! ## Traces -/

theorem write_eq_append (w : BsvWriter) (x : String) : w.write x = w.append [x] := rfl

theorem append_append (w : BsvWriter) (l l' : List String) :
    (w.append l).append l' = w.append (l ++ l') := by
  simp [BsvWriter.append, List.append_assoc]

theorem append_nil (w : BsvWriter) : w.append [] = w := by
  simp [BsvWriter.append]

theorem append_clocks (w : BsvWriter) (l : List String) : (w.append l).clocks = w.clocks := rfl

theorem append_resets (w : BsvWriter) (l : List String) : (w.append l).resets = w.resets := rfl

theorem append_groups (w : BsvWriter) (l : List String) : (w.append l).groups = w.groups := rfl

theorem append_interface (w : BsvWriter) (l : List String) :
    (w.append l).interface = w.interface := rfl

theorem append_interface_groups (w : BsvWriter) (l : List String) :
    (w.append l).interface_groups = w.interface_groups := rfl

theorem append_f (w : BsvWriter) (l : List String) : (w.append l).f = w.f ++ l := rfl

theorem emit_ok (w : BsvWriter) (l : List String) : emit w (.ok l) = .ok (w.append l) := rfl

theorem emit_seq (w : BsvWriter) (a b : Trace) :
    emit w (Trace.seq a b)
      = match emit w a with
        | .ok w' => emit w' b
        | .error e => .error e := by
  cases a with
  | error x => rfl
  | ok l =>
    cases b with
    | error y => simp [Trace.seq, emit, append_append]
    | ok l' => simp [Trace.seq, emit, append_append]

theorem emit_ok_nil (w : BsvWriter) : emit w (.ok []) = .ok w := by
  simp [emit, append_nil]

theorem for_each_emit {α : Type} (body : BsvWriter → α → Outcome) (act : α → Trace)
    (xs : List α) (w : BsvWriter)
    (h : ∀ x ∈ xs, ∀ w', w'.interface_groups = w.interface_groups →
      body w' x = emit w' (act x)) :
    for_each body xs w = emit w (Trace.all act xs) := by
  induction xs generalizing w with
  | nil => simp [for_each, Trace.all, emit_ok_nil]
  | cons x xs ih =>
    have hx := h x (List.mem_cons_self x xs) w rfl
    simp only [for_each, Trace.all, emit_seq]
    rw [hx]
    cases hax : act x with
    | error y => rfl
    | ok l =>
      simp only [emit]
      apply ih
      intro y hy w' hw'
      exact h y (List.mem_cons_of_mem x hy) w' hw'

theorem foldl_write {α : Type} (fn : α → String) (xs : List α) (w : BsvWriter) :
    xs.foldl (fun w x => w.write (fn x)) w = w.append (xs.map fn) := by
  induction xs generalizing w with
  | nil => simp [append_nil]
  | cons x xs ih =>
    rw [List.foldl_cons, ih, write_eq_append, append_append]
    rfl

theorem foldl_append_singleton {α : Type} (fn : α → String) (xs : List α) (w : BsvWriter) :
    xs.foldl (fun w x => w.append [fn x]) w = w.append (xs.map fn) :=
  foldl_write fn xs w

/-! ## The emitters in closed form -/

theorem generate_interface_method_eq (t : PortTables) (g p : String) (w : BsvWriter) :
    generate_interface_method t g w p = emit w (interface_method_trace t g p) := by
  unfold generate_interface_method interface_method_trace
  cases t.port_map.map_at p with
  | error e => simp [emit, append_nil]
  | ok id =>
    cases t.port_sizes.map_at p with
    | error e => simp [emit, append_nil]
    | ok size =>
      cases substr p (g.length + 1) with
      | error e => simp [emit, append_nil]
      | ok sig =>
        simp only []
        split_ifs <;> simp [emit, write_eq_append, append_nil]

theorem generate_interface_group_eq (t : PortTables) (w : BsvWriter)
    (ig : String × List String) :
    generate_interface_group t w ig = emit w (interface_group_trace t ig) := by
  unfold generate_interface_group interface_group_trace
  simp only [emit_seq, emit_ok, write_eq_append, append_append]
  rw [for_each_emit _ (interface_method_trace t ig.1) _ _
    (fun x _ w' _ => generate_interface_method_eq t ig.1 x w')]
  simp only [List.cons_append, List.nil_append]
  cases emit (w.append ["(* always_ready, always_enabled *)\n",
    "interface " ++ to_type_name ig.1 ++ ";\n"])
    (Trace.all (interface_method_trace t ig.1) ig.2) <;> rfl

theorem foldl_generate_interface_field (igs : StdMap (List String)) (w : BsvWriter) :
    igs.foldl generate_interface_field w = w.append (igs.map aggregate_field) :=
  foldl_write aggregate_field igs w

theorem generate_interface_eq (w : BsvWriter) (m : Module) (i : String) :
    generate_interface w m i
      = emit (regroup_ports w w.groups (collect_ports w m).ports)
          (interface_trace (collect_ports w m)
            (regroup_ports w w.groups (collect_ports w m).ports).interface_groups i) := by
  unfold generate_interface interface_trace
  simp only [emit_seq]
  rw [for_each_emit _ (interface_group_trace (collect_ports w m)) _ _
    (fun x _ w' _ => generate_interface_group_eq (collect_ports w m) w' x)]
  cases h : emit (regroup_ports w w.groups (collect_ports w m).ports)
      (Trace.all (interface_group_trace (collect_ports w m))
        (regroup_ports w w.groups (collect_ports w m).ports).interface_groups) with
  | error y => rfl
  | ok w' =>
    have hw' : w'.interface_groups
        = (regroup_ports w w.groups (collect_ports w m).ports).interface_groups := by
      cases hT : Trace.all (interface_group_trace (collect_ports w m))
          (regroup_ports w w.groups (collect_ports w m).ports).interface_groups with
      | error y => rw [hT] at h; obtain ⟨e, l⟩ := y; simp [emit] at h
      | ok l =>
        rw [hT] at h
        simp only [emit, Except.ok.injEq] at h
        rw [← h]
        rfl
    simp only [emit_ok, write_eq_append, foldl_generate_interface_field, append_append,
      append_interface_groups, aggregate_chunks, hw', List.append_assoc, List.cons_append,
      List.nil_append]

theorem generate_instance_signal_eq (pm : StdMap Port) (g s : String) (w : BsvWriter) :
    generate_instance_signal pm g w s = emit w (instance_signal_trace pm g s) := by
  unfold generate_instance_signal instance_signal_trace
  cases pm.map_at s with
  | error e => simp [emit, append_nil]
  | ok id =>
    cases substr s (g.length + 1) with
    | error e => simp [emit, append_nil]
    | ok name =>
      simp only []
      split_ifs <;> simp [emit, write_eq_append, append_nil]

theorem generate_instance_eq (w : BsvWriter) (m : Module) (g : String) :
    generate_instance w m g
      = emit { w with interface_groups := w.interface_groups.index g }
          (instance_trace (instance_portmap m) g
            (members (w.interface_groups.index g) g)) := by
  unfold generate_instance instance_trace
  simp only [emit_seq, emit_ok, write_eq_append, append_append]
  rw [for_each_emit _ (instance_signal_trace (instance_portmap m) g) _ _
    (fun x _ w' _ => generate_instance_signal_eq (instance_portmap m) g x w')]
  simp only [members]
  cases emit (BsvWriter.append { w with interface_groups := w.interface_groups.index g }
    ["    interface " ++ to_type_name g ++ " " ++ g ++ ";\n"])
    (Trace.all (instance_signal_trace (instance_portmap m) g)
      (((w.interface_groups.index g).find g).getD [])) <;> rfl

theorem schedule_names_eq (xs : List String) (w : BsvWriter) :
    schedule_names xs w = w.append (name_chunks xs) := by
  induction xs generalizing w with
  | nil => simp [schedule_names, name_chunks, append_nil]
  | cons x xs ih =>
    cases xs with
    | nil => simp [schedule_names, name_chunks, write_eq_append]
    | cons y ys =>
      simp only [schedule_names, ih, write_eq_append, append_append]
      simp [name_chunks]

theorem write_resets_eq (xs : List String) (w : BsvWriter) :
    write_resets xs w
      = w.append (List.intersperse ", " (xs.map (fun r => "Reset " ++ r))) := by
  induction xs generalizing w with
  | nil => simp [write_resets, append_nil]
  | cons x xs ih =>
    cases xs with
    | nil => simp [write_resets, write_eq_append]
    | cons y ys =>
      simp only [write_resets, ih, write_eq_append, append_append]
      simp

theorem schedule_ports_eq (w : BsvWriter) (m : Module) :
    schedule_ports w m = (regular_ports w m).map Port.name := by
  unfold schedule_ports regular_ports
  have key : ∀ (ps : List Port) (acc : List String),
      ps.foldl (fun ports n =>
          if is_clock_or_reset w n.name then ports else ports ++ [n.name]) acc
        = acc ++ (ps.filter (fun n => !is_clock_or_reset w n.name)).map Port.name := by
    intro ps
    induction ps with
    | nil => simp
    | cons n ps ih =>
      intro acc
      rw [List.foldl_cons, ih]
      cases h : is_clock_or_reset w n.name <;> simp [h]
  simpa using key m.ports []

theorem schedule_ports_append (w : BsvWriter) (l : List String) (m : Module) :
    schedule_ports (w.append l) m = schedule_ports w m := rfl

theorem generate_schedule_eq (w : BsvWriter) (m : Module) :
    generate_schedule w m
      = w.append (schedule_chunks ((regular_ports w m).map Port.name)) := by
  unfold generate_schedule
  simp only [write_eq_append, schedule_names_eq, append_append, schedule_ports_append,
    schedule_ports_eq, schedule_chunks, List.append_assoc]

/-! ## The group map keeps its keys in ascending order -/

theorem StdMap.emplace_sorted {α : Type} (m : StdMap α) (k : String) (v : α)
    (hs : sorted_keys m) : sorted_keys (m.emplace k v) := by
  induction m with
  | nil => simp [StdMap.emplace, sorted_keys]
  | cons e0 rest ih =>
    obtain ⟨k0, x⟩ := e0
    unfold sorted_keys at hs ⊢
    rw [List.pairwise_cons] at hs
    simp only [StdMap.emplace]
    by_cases h1 : str_lt k k0 = true
    · rw [if_pos h1]
      refine List.pairwise_cons.mpr ⟨?_, List.pairwise_cons.mpr hs⟩
      intro e he
      rcases List.mem_cons.mp he with h | h
      · rw [h]; exact h1
      · exact str_lt_trans h1 (hs.1 e h)
    · rw [if_neg h1]
      by_cases h2 : k = k0
      · rw [if_pos h2]
        exact List.pairwise_cons.mpr hs
      · rw [if_neg h2]
        refine List.pairwise_cons.mpr ⟨?_, ih hs.2⟩
        intro e he
        rcases StdMap.mem_emplace rest k v e he with h | h
        · exact hs.1 e h
        · rw [h]
          rcases str_lt_total h2 with h5 | h5
          · exact absurd h5 h1
          · exact h5

theorem StdMap.modify_sorted {α : Type} (m : StdMap α) (k : String) (fn : α → α)
    (hs : sorted_keys m) : sorted_keys (m.modify k fn) := by
  induction m with
  | nil => simp [StdMap.modify, sorted_keys]
  | cons e0 rest ih =>
    obtain ⟨k0, x⟩ := e0
    unfold sorted_keys at hs ⊢
    rw [List.pairwise_cons] at hs
    simp only [StdMap.modify]
    split_ifs with h1 h2
    · exact List.pairwise_cons.mpr hs
    · exact List.pairwise_cons.mpr hs
    · refine List.pairwise_cons.mpr ⟨?_, ih hs.2⟩
      intro e he
      rcases StdMap.mem_modify rest k fn e he with h | ⟨v, hv, hev⟩
      · exact hs.1 e h
      · rw [hev]
        exact hs.1 (k, v) hv

theorem StdMap.find_of_mem {α : Type} (m : StdMap α) (e : String × α) (hs : sorted_keys m)
    (he : e ∈ m) : m.find e.1 = some e.2 := by
  induction m with
  | nil => exact absurd he (List.not_mem_nil e)
  | cons e0 rest ih =>
    obtain ⟨k0, x⟩ := e0
    unfold sorted_keys at hs
    rw [List.pairwise_cons] at hs
    rcases List.mem_cons.mp he with h | h
    · rw [h]
      simp [StdMap.find, str_lt_irrefl]
    · have hlt : str_lt k0 e.1 = true := hs.1 e h
      have hne : e.1 ≠ k0 := fun e' => str_lt_ne hlt e'.symm
      simp only [StdMap.find, str_lt_asymm hlt, hne, if_false, Bool.false_eq_true]
      exact ih hs.2 h

theorem StdMap.mem_of_find {α : Type} (m : StdMap α) (k : String) (v : α)
    (h : m.find k = some v) : (k, v) ∈ m := by
  induction m with
  | nil => simp [StdMap.find] at h
  | cons e0 rest ih =>
    obtain ⟨k0, x⟩ := e0
    simp only [StdMap.find] at h
    split_ifs at h with h1 h2
    · simp only [Option.some.injEq] at h
      rw [h2, h]
      exact List.mem_cons_self _ _
    · exact List.mem_cons_of_mem _ (ih h)

theorem StdMap.emplace_of_find {α : Type} (m : StdMap α) (k : String) (x v : α)
    (h : m.find k = some x) : m.emplace k v = m := by
  induction m with
  | nil => simp [StdMap.find] at h
  | cons e0 rest ih =>
    obtain ⟨k0, y⟩ := e0
    simp only [StdMap.find] at h
    simp only [StdMap.emplace]
    split_ifs at h ⊢ with h1 h2
    · rfl
    · rw [ih h]

theorem regroup_step_sorted (p g : String) (w : BsvWriter)
    (hs : sorted_keys w.interface_groups) :
    sorted_keys (regroup_step p w g).interface_groups := by
  unfold regroup_step
  split_ifs
  · exact StdMap.modify_sorted _ _ _ (StdMap.emplace_sorted _ _ _ hs)
  · exact hs

theorem regroup_port_sorted (p : String) (gs : List String) (w : BsvWriter)
    (hs : sorted_keys w.interface_groups) :
    sorted_keys (regroup_port gs w p).interface_groups := by
  unfold regroup_port
  induction gs generalizing w with
  | nil => exact hs
  | cons g gs ih =>
    rw [List.foldl_cons]
    exact ih _ (regroup_step_sorted p g w hs)

theorem foldl_regroup_port_sorted (gs ps : List String) (w : BsvWriter)
    (hs : sorted_keys w.interface_groups) :
    sorted_keys (ps.foldl (regroup_port gs) w).interface_groups := by
  induction ps generalizing w with
  | nil => exact hs
  | cons p ps ih =>
    rw [List.foldl_cons]
    exact ih _ (regroup_port_sorted p gs w hs)

theorem regroup_ports_sorted (w : BsvWriter) (groups ports : List String)
    (hs : sorted_keys w.interface_groups) :
    sorted_keys (regroup_ports w groups ports).interface_groups := by
  unfold regroup_ports
  split_ifs
  · exact hs
  · exact foldl_regroup_port_sorted _ _ _ hs

/-! ## `regroup_ports` changes the group map only -/

theorem regroup_ports_frame (w : BsvWriter) (groups ports : List String) :
    regroup_ports w groups ports
      = { w with interface_groups := (regroup_ports w groups ports).interface_groups } := by
  have hstep : ∀ (p g : String) (w' : BsvWriter),
      regroup_step p w' g
        = { w' with interface_groups := (regroup_step p w' g).interface_groups } := by
    intro p g w'
    unfold regroup_step
    split_ifs <;> rfl
  have hport : ∀ (p : String) (gs : List String) (w' : BsvWriter),
      regroup_port gs w' p
        = { w' with interface_groups := (regroup_port gs w' p).interface_groups } := by
    intro p gs
    unfold regroup_port
    induction gs with
    | nil => intro w'; rfl
    | cons g gs ih =>
      intro w'
      rw [List.foldl_cons]
      rw [ih (regroup_step p w' g)]
      rw [hstep p g w']
  have hall : ∀ (gs ps : List String) (w' : BsvWriter),
      ps.foldl (regroup_port gs) w'
        = { w' with interface_groups := (ps.foldl (regroup_port gs) w').interface_groups } := by
    intro gs ps
    induction ps with
    | nil => intro w'; rfl
    | cons p ps ih =>
      intro w'
      rw [List.foldl_cons]
      rw [ih (regroup_port gs w' p)]
      rw [hport p gs w']
  unfold regroup_ports
  split_ifs
  · rfl
  · exact hall _ _ w

theorem regroup_ports_clocks (w : BsvWriter) (groups ports : List String) :
    (regroup_ports w groups ports).clocks = w.clocks := by
  rw [regroup_ports_frame]

theorem regroup_ports_resets (w : BsvWriter) (groups ports : List String) :
    (regroup_ports w groups ports).resets = w.resets := by
  rw [regroup_ports_frame]

theorem regroup_ports_interface (w : BsvWriter) (groups ports : List String) :
    (regroup_ports w groups ports).interface = w.interface := by
  rw [regroup_ports_frame]

theorem regroup_ports_f (w : BsvWriter) (groups ports : List String) :
    (regroup_ports w groups ports).f = w.f := by
  rw [regroup_ports_frame]

theorem regroup_ports_groups (w : BsvWriter) (groups ports : List String) :
    (regroup_ports w groups ports).groups = w.groups := by
  rw [regroup_ports_frame]

theorem regular_ports_congr (w w' : BsvWriter) (m : Module) (hc : w'.clocks = w.clocks)
    (hr : w'.resets = w.resets) : regular_ports w' m = regular_ports w m := by
  unfold regular_ports is_clock_or_reset
  rw [hc, hr]

theorem generate_instance_entry (w : BsvWriter) (m : Module) (e : String × List String)
    (hs : sorted_keys w.interface_groups) (he : e ∈ w.interface_groups) :
    generate_instance w m e.1 = emit w (instance_trace (instance_portmap m) e.1 e.2) := by
  have hf := StdMap.find_of_mem _ e hs he
  have hi : w.interface_groups.index e.1 = w.interface_groups :=
    StdMap.emplace_of_find _ _ _ _ hf
  rw [generate_instance_eq, hi]
  simp [members, hf]

theorem instances_eq (w : BsvWriter) (m : Module) (igs : StdMap (List String))
    (h : w.interface_groups = igs) (hs : sorted_keys igs) :
    for_each (fun w ig => generate_instance w m ig.1) igs w
      = emit w (Trace.all (fun ig => instance_trace (instance_portmap m) ig.1 ig.2) igs) := by
  apply for_each_emit
  intro x hx w' hw'
  have h' : w'.interface_groups = igs := hw'.trans h
  have hs' : sorted_keys w'.interface_groups := by rw [h']; exact hs
  have hx' : x ∈ w'.interface_groups := by rw [h']; exact hx
  exact generate_instance_entry w' m x hs' hx'

theorem write_module_eq (w : BsvWriter) (m : Module) (hs : sorted_keys w.interface_groups) :
    write_module w m
      = emit (regroup_ports w w.groups (collect_ports w m).ports)
          (module_trace w m
            (regroup_ports w w.groups (collect_ports w m).ports).interface_groups) := by
  have hs1 := regroup_ports_sorted w w.groups (collect_ports w m).ports hs
  have hc := regroup_ports_clocks w w.groups (collect_ports w m).ports
  have hr := regroup_ports_resets w w.groups (collect_ports w m).ports
  have hi := regroup_ports_interface w w.groups (collect_ports w m).ports
  unfold write_module
  rw [generate_interface_eq]
  generalize regroup_ports w w.groups (collect_ports w m).ports = w1 at hs1 hc hr hi
  unfold module_trace
  simp only [emit_seq]
  cases hT : interface_trace (collect_ports w m) w1.interface_groups w.interface with
  | error y => simp [emit]
  | ok l =>
    simp only [emit_ok, write_eq_append, foldl_append_singleton, write_resets_eq,
      append_append, append_clocks, append_resets, append_interface, append_interface_groups]
    rw [instances_eq (w1.append _) m w1.interface_groups rfl hs1]
    simp only [header_chunks, hc, hr, hi, List.append_assoc, List.cons_append,
      List.nil_append]
    cases hI : Trace.all (fun ig => instance_trace (instance_portmap m) ig.1 ig.2)
        w1.interface_groups with
    | error y => rfl
    | ok l2 =>
      have hreg : ∀ l', regular_ports (w1.append l') m = regular_ports w m :=
        fun l' => regular_ports_congr w (w1.append l') m hc hr
      simp only [emit_ok, generate_schedule_eq, write_eq_append, append_append, hreg,
        List.append_assoc]

/-! ## Group membership -/

theorem flatten_appended_eq_filter (groups ports : List String) (g : String)
    (hc : groups.count g = 1) :
    (ports.map (appended groups g)).flatten = ports.filter (fun p => (find p g).isSome) := by
  induction ports with
  | nil => rfl
  | cons p ps ih =>
    rw [List.map_cons, List.flatten_cons, ih]
    unfold appended
    cases hf : (find p g).isSome <;> simp [hf, hc]

theorem members_regroup_ports_nodup (w : BsvWriter) (hw : w.interface_groups = [])
    (groups ports : List String) (hnd : groups.Nodup) (g : String) (hg : g ∈ groups) :
    members (regroup_ports w groups ports).interface_groups g
      = ports.filter (fun p => (find p g).isSome) := by
  rw [members_regroup_ports, hw,
    flatten_appended_eq_filter groups ports g (List.count_eq_one_of_mem hnd hg)]
  rfl

theorem mem_some_group_iff (m : StdMap (List String)) (p : String) :
    (∃ g l, m.find g = some l ∧ p ∈ l) ↔ ∃ g, p ∈ members m g := by
  constructor
  · rintro ⟨g, l, hl, hp⟩
    exact ⟨g, by simpa [members, hl] using hp⟩
  · rintro ⟨g, hp⟩
    unfold members at hp
    cases hl : m.find g with
    | none => rw [hl] at hp; exact absurd hp (List.not_mem_nil p)
    | some l => rw [hl] at hp; exact ⟨g, l, hl, hp⟩

/-- C1 (coverage exclusion): started from an empty group map, `p` is a member
of some group that `regroup_ports` stores exactly when `p` is one of the
ports and contains a configured prefix as a substring. Ports that contain no
configured prefix get no line: with them taken out of the module,
`generate_interface` and every `generate_instance` after it have the same
outcome as with them. -/
theorem coverage_exclusion (w : BsvWriter) (hw : w.interface_groups = [])
    (groups ports : List String) (p : String) (m : Module) :
    ((∃ g l, (regroup_ports w groups ports).interface_groups.find g = some l ∧ p ∈ l)
        ↔ p ∈ ports ∧ ∃ g ∈ groups, ∃ s t, p.data = s ++ g.data ++ t)
    ∧ generate_interface w (drop_ungrouped w.groups m) w.interface
        = generate_interface w m w.interface
    ∧ ∀ g out,
        generate_instance ((regroup_ports w w.groups (collect_ports w m).ports).append out)
            (drop_ungrouped w.groups m) g
          = generate_instance
              ((regroup_ports w w.groups (collect_ports w m).ports).append out) m g := by
  refine ⟨?_, ?_, ?_⟩
  · rw [mem_some_group_iff]
    simp only [mem_members_regroup_ports w hw, find_isSome_iff]
    constructor
    · rintro ⟨g, hp, hg, hs⟩
      exact ⟨hp, g, hg, hs⟩
    · rintro ⟨hp, g, hg, hs⟩
      exact ⟨g, hp, hg, hs⟩
  · exact generate_interface_keep_ports w m w.interface _ hw (fun s hs => hs)
  · intro g out
    exact generate_instance_after_regroup w hw m _ (fun s hs => hs) _ out g

theorem coverage_exclusion_witness :
    scenario_writer.interface_groups = []
    ∧ ((∃ g l, (regroup_ports scenario_writer ["foo", "bar"]
            ["foo_data", "foo_valid", "bar_en", "spare"]).interface_groups.find g = some l
          ∧ "spare" ∈ l)
        ↔ "spare" ∈ ["foo_data", "foo_valid", "bar_en", "spare"]
          ∧ ∃ g ∈ ["foo", "bar"], ∃ s t, "spare".data = s ++ g.data ++ t) :=
  ⟨rfl, (coverage_exclusion scenario_writer rfl ["foo", "bar"]
    ["foo_data", "foo_valid", "bar_en", "spare"] "spare" scenario_module).1⟩

/-- C2 (group membership and order): for pairwise distinct prefixes and an
empty map at the start, the member list `regroup_ports` stores for a
configured prefix `g` is the port list filtered, in its order, to the names
that contain `g` as a substring anywhere; so a port that contains two
configured prefixes is a member of both groups. -/
theorem group_membership_order (w : BsvWriter) (hw : w.interface_groups = [])
    (groups ports : List String) (hnd : groups.Nodup) (g : String) (hg : g ∈ groups) :
    ((regroup_ports w groups ports).interface_groups.find g).getD []
        = ports.filter (fun p => (find p g).isSome)
    ∧ (∀ p, (find p g).isSome = true ↔ ∃ s t, p.data = s ++ g.data ++ t)
    ∧ ∀ g' ∈ groups, g' ≠ g → ∀ p ∈ ports,
        (find p g).isSome = true → (find p g').isSome = true →
        p ∈ ((regroup_ports w groups ports).interface_groups.find g).getD []
        ∧ p ∈ ((regroup_ports w groups ports).interface_groups.find g').getD [] := by
  refine ⟨members_regroup_ports_nodup w hw groups ports hnd g hg,
    fun p => find_isSome_iff p g, ?_⟩
  intro g' hg' _ p hp hf hf'
  exact ⟨(mem_members_regroup_ports w hw groups ports g p).mpr ⟨hp, hg, hf⟩,
    (mem_members_regroup_ports w hw groups ports g' p).mpr ⟨hp, hg', hf'⟩⟩

theorem group_membership_order_witness :
    scenario_writer.interface_groups = [] ∧ ["foo", "bar"].Nodup ∧ "foo" ∈ ["foo", "bar"]
    ∧ ((regroup_ports scenario_writer ["foo", "bar"]
          ["foo_data", "bar_foo", "foo_valid", "bar_en"]).interface_groups.find "foo").getD []
        = ["foo_data", "bar_foo", "foo_valid", "bar_en"].filter
            (fun p => (find p "foo").isSome) :=
  ⟨rfl, by decide, by decide,
    (group_membership_order scenario_writer rfl ["foo", "bar"]
      ["foo_data", "bar_foo", "foo_valid", "bar_en"] (by decide) "foo" (by decide)).1⟩

/-! ## Direction mapping -/

theorem find?_name_of_nodup (ps : List Port) (hnd : (ps.map Port.name).Nodup) (port : Port)
    (hp : port ∈ ps) : ps.find? (fun n => n.name = port.name) = some port := by
  induction ps with
  | nil => exact absurd hp (List.not_mem_nil port)
  | cons q qs ih =>
    rw [List.map_cons, List.nodup_cons] at hnd
    rcases List.mem_cons.mp hp with h | h
    · subst h
      simp
    · have hne : q.name ≠ port.name := by
        intro e
        apply hnd.1
        rw [e]
        exact List.mem_map_of_mem Port.name h
      simp [hne, ih hnd.2 h]

theorem regular_ports_find (w : BsvWriter) (m : Module) (hnd : (m.ports.map Port.name).Nodup)
    (port : Port) (hp : port ∈ m.ports) (hreg : is_clock_or_reset w port.name = false) :
    (regular_ports w m).find? (fun n => n.name = port.name) = some port := by
  apply find?_name_of_nodup
  · exact hnd.sublist (List.Sublist.map Port.name (List.filter_sublist m.ports))
  · unfold regular_ports
    exact List.mem_filter.mpr ⟨hp, by simp [hreg]⟩

/-- One round of the member loops: for a port of a module with distinct port
names, with wire size `size` and stripped name `n`, the round of the member
loop of `generate_interface` writes exactly the one chunk
`method Action n(Bit#(size) v);` for an input, exactly the one chunk
`method Bit#(size) n();` for an output and nothing for an inout; the round
of the signal loop of `generate_instance` writes exactly
`method n(n) enable((*in_high*) EN_n);`, `method n n();` and `inout n;`. -/
theorem direction_mapping (w0 w : BsvWriter) (m : Module) (port : Port) (g n : String)
    (hnd : (m.ports.map Port.name).Nodup) (hport : port ∈ m.ports)
    (hreg : is_clock_or_reset w0 port.name = false)
    (hn : substr port.name (g.length + 1) = .ok n) :
    (port.wire.port_input = true → port.wire.port_output = false →
      generate_interface_method (collect_ports w0 m) g w port.name
          = .ok (w.write ("   method Action " ++ n ++ "(Bit#(" ++ fmt_lu port.wire.size
              ++ ") v);\n"))
        ∧ generate_instance_signal (instance_portmap m) g w port.name
          = .ok (w.write ("        method " ++ n ++ "(" ++ n ++ ") enable((*in_high*) EN_"
              ++ n ++ ");\n")))
    ∧ (port.wire.port_input = false →
      generate_interface_method (collect_ports w0 m) g w port.name
          = .ok (w.write ("   method Bit#(" ++ fmt_lu port.wire.size ++ ") " ++ n ++ "();\n"))
        ∧ generate_instance_signal (instance_portmap m) g w port.name
          = .ok (w.write ("        method " ++ n ++ " " ++ n ++ "();\n")))
    ∧ (port.wire.port_input = true → port.wire.port_output = true →
      generate_interface_method (collect_ports w0 m) g w port.name = .ok w
        ∧ generate_instance_signal (instance_portmap m) g w port.name
          = .ok (w.write ("        inout " ++ n ++ ";\n"))) := by
  have h1 : (collect_ports w0 m).port_map.map_at port.name = .ok port := by
    unfold StdMap.map_at
    rw [collect_ports_map, regular_ports_find w0 m hnd port hport hreg]
  have h2 : (collect_ports w0 m).port_sizes.map_at port.name = .ok port.wire.size := by
    unfold StdMap.map_at
    rw [collect_ports_sizes, regular_ports_find w0 m hnd port hport hreg]
    rfl
  have h3 : (instance_portmap m).map_at port.name = .ok port := by
    unfold StdMap.map_at
    rw [instance_portmap_find, find?_name_of_nodup m.ports hnd port hport]
  unfold generate_interface_method generate_instance_signal
  rw [h1, h2, h3, hn]
  refine ⟨?_, ?_, ?_⟩
  · intro hi ho
    have hd : direction_of port.wire = "input" := by simp [direction_of, hi, ho]
    simp [hd]
  · intro hi
    have hd : direction_of port.wire = "output" := by simp [direction_of, hi]
    have hne : ("output" : String) ≠ "input" := by decide
    simp [hd, hne]
  · intro hi ho
    have hd : direction_of port.wire = "inout" := by simp [direction_of, hi, ho]
    have hne : ("inout" : String) ≠ "input" := by decide
    have hne' : ("inout" : String) ≠ "output" := by decide
    simp [hd, hne, hne']

theorem direction_mapping_witness :
    (scenario_module.ports.map Port.name).Nodup
    ∧ is_clock_or_reset scenario_writer "foo_data" = false
    ∧ substr "foo_data" ("foo".length + 1) = .ok "data"
    ∧ generate_interface_method (collect_ports scenario_writer scenario_module) "foo"
        scenario_writer "foo_data"
      = .ok (scenario_writer.write ("   method Action " ++ "data" ++ "(Bit#(" ++ fmt_lu 8
          ++ ") v);\n")) :=
  ⟨by decide, by decide, rfl,
    ((direction_mapping scenario_writer scenario_writer scenario_module
      { name := "foo_data", wire := { port_input := true, port_output := false, size := 8 } }
      "foo" "data" (by decide) (by decide) (by decide) rfl).1 rfl rfl).1⟩

/-! ## Method names -/

/-- C4 (method-name derivation): on the group `foo` and the port `a_foo_x`,
which has the prefix inside its name and not at its front, the port is a
member of the group and the method name in the interface block and in the
binding block is `o_x`: the port name without its first four characters,
not the port name without a leading `foo` and one separator. -/
theorem method_name_inner_match :
    (∃ w', write_module foo_writer inner_match_module = .ok w'
      ∧ w'.interface_groups = [("foo", ["a_foo_x"])]
      ∧ "   method Action o_x(Bit#(1) v);\n" ∈ w'.f
      ∧ "        method o_x(o_x) enable((*in_high*) EN_o_x);\n" ∈ w'.f)
    ∧ "foo".data.isPrefixOf "a_foo_x".data = false :=
  ⟨⟨_, rfl, rfl, by decide, by decide⟩, by decide⟩

/-! ## The schedule -/

theorem is_clock_or_reset_iff (w : BsvWriter) (s : String) :
    is_clock_or_reset w s = true ↔ s ∈ w.clocks ∨ s ∈ w.resets := by
  unfold is_clock_or_reset
  by_cases h1 : s ∈ w.clocks
  · simp [h1]
  · by_cases h2 : s ∈ w.resets
    · simp [h2]
    · simp [h1, h2]

/-- C5 (schedule content): `generate_schedule` writes `schedule(`, a name
list, `) CF (`, the same name list again and `);`. The name list holds the
names of the ports of the module that are neither a configured clock nor a
configured reset, in the order of the module, whether or not they are in a
group, each after eight blanks, with `",\n"` between two names and nothing
after the last one. -/
theorem schedule_content (w : BsvWriter) (m : Module) :
    generate_schedule w m
        = w.append (["    schedule(\n"]
            ++ List.intersperse ",\n"
                (((m.ports.filter (fun n => !is_clock_or_reset w n.name)).map Port.name).map
                  (fun n => "        " ++ n))
            ++ ["\n    ) CF (\n"]
            ++ List.intersperse ",\n"
                (((m.ports.filter (fun n => !is_clock_or_reset w n.name)).map Port.name).map
                  (fun n => "        " ++ n))
            ++ ["\n    );\n"])
    ∧ ∀ s, is_clock_or_reset w s = true ↔ s ∈ w.clocks ∨ s ∈ w.resets :=
  ⟨generate_schedule_eq w m, is_clock_or_reset_iff w⟩

/-- C6 (counterexample): on the scenario the two lists of the schedule are
not `data`, `valid`, `en`. -/
theorem schedule_scenario_not_stripped :
    (generate_schedule scenario_writer scenario_module).f
      ≠ ["    schedule(\n", "        data", ",\n", "        valid", ",\n", "        en",
          "\n    ) CF (\n", "        data", ",\n", "        valid", ",\n", "        en",
          "\n    );\n"] := by
  decide

/-- C6, amended: the names in the schedule are the names in the vector
`ports` of `generate_schedule`, which are the full names of the ports that
are neither clock nor reset, not the stripped method names of the binding
blocks; on the scenario the binding blocks bind `en`, `data` and `valid` and
both lists of the schedule are `foo_data`, `foo_valid`, `bar_en`. -/
theorem schedule_names_are_port_names :
    (∀ (w : BsvWriter) (m : Module),
      generate_schedule w m = w.append (schedule_chunks (schedule_ports w m))
      ∧ ∀ n, n ∈ schedule_ports w m
          ↔ ∃ port ∈ m.ports, port.name = n ∧ is_clock_or_reset w n = false)
    ∧ ∃ w', write_module scenario_writer scenario_module = .ok w'
      ∧ w'.f = [
        "(* always_ready, always_enabled *)\n", "interface Bar;\n",
        "   method Action en(Bit#(1) v);\n", "endinterface\n",
        "(* always_ready, always_enabled *)\n", "interface Foo;\n",
        "   method Action data(Bit#(8) v);\n", "   method Bit#(1) valid();\n",
        "endinterface\n",
        "(* always_ready, always_enabled *)\n", "interface Top;\n",
        "    interface Bar bar;\n", "    interface Foo foo;\n", "endinterface\n",
        "import \"BVI\" m=\n", "module mkTop#(", "Clock clk, ", "Reset rst", ")", "(Top);\n",
        "    input_clock clk() = clk;\n", "    input_reset rst() = rst;\n",
        "    interface Bar bar;\n", "        method en(en) enable((*in_high*) EN_en);\n",
        "    endinterface\n",
        "    interface Foo foo;\n", "        method data(data) enable((*in_high*) EN_data);\n",
        "        method valid valid();\n", "    endinterface\n",
        "    schedule(\n", "        foo_data", ",\n", "        foo_valid", ",\n",
        "        bar_en", "\n    ) CF (\n", "        foo_data", ",\n", "        foo_valid",
        ",\n", "        bar_en", "\n    );\n", "endmodule\n"] := by
  refine ⟨fun w m => ⟨?_, fun n => ?_⟩, ⟨_, rfl, rfl⟩⟩
  · rw [generate_schedule_eq, schedule_ports_eq]
  · rw [schedule_ports_eq]
    unfold regular_ports
    simp only [List.mem_map, List.mem_filter, Bool.not_eq_true']
    constructor
    · rintro ⟨port, ⟨hp, hr⟩, rfl⟩
      exact ⟨port, hp, rfl, hr⟩
    · rintro ⟨port, hp, rfl, hr⟩
      exact ⟨port, ⟨hp, hr⟩, rfl⟩

/-! ## Ports in no group -/

/-- C7 (counterexample): the port `spare` is neither clock nor reset and is
a member of no group, and `write_module` lists it in the schedule. -/
theorem ungrouped_port_in_schedule :
    ∃ w', write_module foo_writer spare_module = .ok w'
      ∧ is_clock_or_reset foo_writer "spare" = false
      ∧ (∀ e ∈ w'.interface_groups, "spare" ∉ e.2)
      ∧ "        spare" ∈ w'.f :=
  ⟨_, rfl, by decide, by decide, by decide⟩

/-- C7, amended: a port that is neither clock nor reset and contains no
configured prefix is in no member list and gets no line in an interface
block or a binding block (with the port taken out of the module,
`generate_interface` and every `generate_instance` after it have the same
outcome), but its name is in the name list that `generate_schedule` writes
twice. -/
theorem ungrouped_port_only_in_schedule (w : BsvWriter) (hw : w.interface_groups = [])
    (m : Module) (port : Port) (hport : port ∈ m.ports)
    (hreg : is_clock_or_reset w port.name = false)
    (hno : in_some_group w.groups port.name = false) :
    (∀ e ∈ (regroup_ports w w.groups (collect_ports w m).ports).interface_groups,
        port.name ∉ e.2)
    ∧ generate_interface w (keep_ports (fun s => s ≠ port.name) m) w.interface
        = generate_interface w m w.interface
    ∧ (∀ g out,
        generate_instance ((regroup_ports w w.groups (collect_ports w m).ports).append out)
            (keep_ports (fun s => s ≠ port.name) m) g
          = generate_instance
              ((regroup_ports w w.groups (collect_ports w m).ports).append out) m g)
    ∧ port ∉ (keep_ports (fun s => s ≠ port.name) m).ports
    ∧ generate_schedule w m = w.append (schedule_chunks (schedule_ports w m))
    ∧ port.name ∈ schedule_ports w m := by
  have hk : ∀ s, in_some_group w.groups s = true
      → (fun s => decide (s ≠ port.name)) s = true := by
    intro s hs
    have : s ≠ port.name := by
      intro e
      rw [e, hno] at hs
      exact absurd hs (by simp)
    simpa using this
  refine ⟨?_, ?_, ?_, ?_, ?_, ?_⟩
  · intro e he hmem
    have := (regroup_ports_all_members w w.groups _ hw e he _ hmem).2
    rw [hno] at this
    exact absurd this (by simp)
  · exact generate_interface_keep_ports w m w.interface _ hw hk
  · intro g out
    exact generate_instance_after_regroup w hw m _ hk _ out g
  · simp [keep_ports]
  · rw [generate_schedule_eq, schedule_ports_eq]
  · rw [schedule_ports_eq]
    unfold regular_ports
    exact List.mem_map_of_mem Port.name (List.mem_filter.mpr ⟨hport, by simp [hreg]⟩)

theorem ungrouped_port_only_in_schedule_witness :
    foo_writer.interface_groups = []
    ∧ is_clock_or_reset foo_writer "spare" = false
    ∧ in_some_group foo_writer.groups "spare" = false
    ∧ generate_interface foo_writer (keep_ports (fun s => s ≠ "spare") spare_module)
        foo_writer.interface
      = generate_interface foo_writer spare_module foo_writer.interface
    ∧ "spare" ∈ schedule_ports foo_writer spare_module :=
  ⟨rfl, by decide, by decide,
    (ungrouped_port_only_in_schedule foo_writer rfl spare_module
      { name := "spare", wire := { port_input := true, port_output := false, size := 1 } }
      (by decide) (by decide) (by decide)).2.1,
    (ungrouped_port_only_in_schedule foo_writer rfl spare_module
      { name := "spare", wire := { port_input := true, port_output := false, size := 1 } }
      (by decide) (by decide) (by decide)).2.2.2.2.2⟩

/-! ## When `write_module` returns -/

theorem emit_ok_iff (w : BsvWriter) (t : Trace) :
    (∃ w', emit w t = .ok w') ↔ ∃ l, t = .ok l := by
  cases t with
  | error y => obtain ⟨e, l⟩ := y; simp [emit]
  | ok l => simp [emit]

theorem Trace.seq_ok_iff (a b : Trace) :
    (∃ l, Trace.seq a b = .ok l) ↔ (∃ l, a = .ok l) ∧ (∃ l, b = .ok l) := by
  cases a with
  | error x => simp [Trace.seq]
  | ok la =>
    cases b with
    | error y => obtain ⟨e, l⟩ := y; simp [Trace.seq]
    | ok lb => simp [Trace.seq]

theorem Trace.all_ok_iff {α : Type} (act : α → Trace) (xs : List α) :
    (∃ l, Trace.all act xs = .ok l) ↔ ∀ x ∈ xs, ∃ l, act x = .ok l := by
  induction xs with
  | nil => simp [Trace.all]
  | cons x xs ih =>
    simp only [Trace.all, Trace.seq_ok_iff, ih, List.mem_cons, forall_eq_or_imp]

theorem substr_ok_iff (p : String) (pos : Nat) :
    (∃ r, substr p pos = .ok r) ↔ pos ≤ p.length := by
  unfold substr
  by_cases h : pos > p.length
  · rw [if_pos h]
    simp
    omega
  · rw [if_neg h]
    simp
    omega

theorem interface_method_trace_ok_iff (t : PortTables) (g p : String) :
    (∃ l, interface_method_trace t g p = .ok l)
      ↔ (∃ id, t.port_map.find p = some id) ∧ (∃ n, t.port_sizes.find p = some n)
        ∧ g.length + 1 ≤ p.length := by
  rw [← substr_ok_iff]
  unfold interface_method_trace StdMap.map_at
  cases t.port_map.find p with
  | none => simp
  | some id =>
    cases t.port_sizes.find p with
    | none => simp
    | some n =>
      cases substr p (g.length + 1) with
      | error e => simp
      | ok sig =>
        simp only []
        split_ifs <;> simp

theorem instance_signal_trace_ok_iff (pm : StdMap Port) (g s : String) :
    (∃ l, instance_signal_trace pm g s = .ok l)
      ↔ (∃ id, pm.find s = some id) ∧ g.length + 1 ≤ s.length := by
  rw [← substr_ok_iff]
  unfold instance_signal_trace StdMap.map_at
  cases pm.find s with
  | none => simp
  | some id =>
    cases substr s (g.length + 1) with
    | error e => simp
    | ok sig =>
      simp only []
      split_ifs <;> simp

theorem module_trace_ok_iff (w : BsvWriter) (m : Module) (igs : StdMap (List String)) :
    (∃ l, module_trace w m igs = .ok l)
      ↔ ∀ e ∈ igs, ∀ s ∈ e.2,
          (∃ id, (collect_ports w m).port_map.find s = some id)
          ∧ (∃ n, (collect_ports w m).port_sizes.find s = some n)
          ∧ (∃ id, (instance_portmap m).find s = some id)
          ∧ e.1.length + 1 ≤ s.length := by
  unfold module_trace interface_trace interface_group_trace instance_trace
  simp only [Trace.seq_ok_iff, Trace.all_ok_iff, interface_method_trace_ok_iff,
    instance_signal_trace_ok_iff]
  constructor
  · rintro ⟨⟨h1, _⟩, _, h2, _⟩ e he s hs
    obtain ⟨_, h1', _⟩ := h1 e he
    obtain ⟨_, h2', _⟩ := h2 e he
    exact ⟨(h1' s hs).1, (h1' s hs).2.1, (h2' s hs).1, (h1' s hs).2.2⟩
  · intro h
    refine ⟨⟨fun e he => ⟨⟨_, rfl⟩, fun s hs => ?_, ⟨_, rfl⟩⟩, ⟨_, rfl⟩⟩, ⟨_, rfl⟩,
      fun e he => ⟨⟨_, rfl⟩, fun s hs => ?_, ⟨_, rfl⟩⟩, ⟨_, rfl⟩⟩
    · exact ⟨(h e he s hs).1, (h e he s hs).2.1, (h e he s hs).2.2.2⟩
    · exact ⟨(h e he s hs).2.2.1, (h e he s hs).2.2.2⟩

theorem sorted_keys_nil {α : Type} : sorted_keys ([] : StdMap α) := List.Pairwise.nil

theorem eq_of_contains_of_length_le (s g : String) (hf : (find s g).isSome = true)
    (hl : s.length ≤ g.length) : s = g := by
  obtain ⟨a, b, hab⟩ := (find_isSome_iff s g).mp hf
  have hlen := congrArg List.length hab
  simp only [List.length_append] at hlen
  have hs : s.length = s.data.length := rfl
  have hg : g.length = g.data.length := rfl
  have ha : a = [] := List.eq_nil_of_length_eq_zero (by omega)
  have hb : b = [] := List.eq_nil_of_length_eq_zero (by omega)
  subst ha
  subst hb
  apply String.ext
  simpa using hab

theorem find_self (g : String) : (find g g).isSome = true :=
  (find_isSome_iff g g).mpr ⟨[], [], by simp⟩

theorem find?_name_isSome (ps : List Port) (s : String) (hs : s ∈ ps.map Port.name) :
    ∃ id, ps.find? (fun n => n.name = s) = some id := by
  obtain ⟨q, hq, hqs⟩ := List.mem_map.mp hs
  cases h : ps.find? (fun n => n.name = s) with
  | some id => exact ⟨id, rfl⟩
  | none =>
    have := List.find?_eq_none.mp h q hq
    simp [hqs] at this

theorem write_module_ok_iff (w : BsvWriter) (hw : w.interface_groups = []) (m : Module) :
    (∃ w', write_module w m = .ok w')
      ↔ ∀ port ∈ m.ports, is_clock_or_reset w port.name = false → port.name ∉ w.groups := by
  have hs : sorted_keys w.interface_groups := by rw [hw]; exact sorted_keys_nil
  rw [write_module_eq w m hs, emit_ok_iff, module_trace_ok_iff]
  have hent := regroup_ports_entries w w.groups (collect_ports w m).ports hw
  constructor
  · intro h port hport hreg hg
    have hmem : port.name ∈ (collect_ports w m).ports := by
      rw [collect_ports_ports]
      unfold regular_ports
      exact List.mem_map_of_mem Port.name (List.mem_filter.mpr ⟨hport, by simp [hreg]⟩)
    have hin := (mem_members_regroup_ports w hw w.groups (collect_ports w m).ports
      port.name port.name).mpr ⟨hmem, hg, find_self port.name⟩
    unfold members at hin
    cases hl : (regroup_ports w w.groups (collect_ports w m).ports).interface_groups.find
        port.name with
    | none => rw [hl] at hin; exact absurd hin (List.not_mem_nil _)
    | some l =>
      rw [hl] at hin
      have := (h (port.name, l) (StdMap.mem_of_find _ _ _ hl) port.name hin).2.2.2
      simp only at this
      omega
  · intro h e he s hs'
    obtain ⟨h1, h2, h3⟩ := hent e he s hs'
    have hreg : s ∈ (regular_ports w m).map Port.name := by
      rw [← collect_ports_ports]; exact h1
    obtain ⟨id, hid⟩ := find?_name_isSome _ s hreg
    have hall : s ∈ m.ports.map Port.name := by
      obtain ⟨q, hq, hqs⟩ := List.mem_map.mp hreg
      unfold regular_ports at hq
      exact List.mem_map.mpr ⟨q, (List.mem_filter.mp hq).1, hqs⟩
    refine ⟨⟨id, by rw [collect_ports_map, hid]⟩, ⟨id.wire.size, by
      rw [collect_ports_sizes, hid]; rfl⟩, ?_, ?_⟩
    · rw [instance_portmap_find]
      exact find?_name_isSome _ s hall
    · by_contra hlt
      have hse : s = e.1 := eq_of_contains_of_length_le s e.1 h3 (by omega)
      obtain ⟨q, hq, hqs⟩ := List.mem_map.mp hreg
      unfold regular_ports at hq
      have hq' := List.mem_filter.mp hq
      apply h q hq'.1 (by simpa using hq'.2)
      rw [hqs, hse]
      exact h2

theorem Trace.seq_eq_ok (a b : Trace) (l : List String) (h : Trace.seq a b = .ok l) :
    ∃ la lb, a = .ok la ∧ b = .ok lb ∧ l = la ++ lb := by
  cases a with
  | error x => simp [Trace.seq] at h
  | ok la =>
    cases b with
    | error y => obtain ⟨e, l'⟩ := y; simp [Trace.seq] at h
    | ok lb =>
      simp only [Trace.seq, Except.ok.injEq] at h
      exact ⟨la, lb, rfl, rfl, h.symm⟩

theorem write_module_ok_f (w : BsvWriter) (hw : w.interface_groups = []) (m : Module)
    (w' : BsvWriter) (h : write_module w m = .ok w') :
    ∃ a b, w'.f = w.f ++ a ++ header_chunks w.clocks w.resets w.interface m.name ++ b := by
  have hs : sorted_keys w.interface_groups := by rw [hw]; exact sorted_keys_nil
  rw [write_module_eq w m hs] at h
  cases ht : module_trace w m
      (regroup_ports w w.groups (collect_ports w m).ports).interface_groups with
  | error y => rw [ht] at h; obtain ⟨e, l⟩ := y; simp [emit] at h
  | ok l =>
    rw [ht] at h
    simp only [emit, Except.ok.injEq] at h
    unfold module_trace at ht
    obtain ⟨la, lb, _, hb, hl⟩ := Trace.seq_eq_ok _ _ _ ht
    obtain ⟨lc, ld, hc, _, hl'⟩ := Trace.seq_eq_ok _ _ _ hb
    simp only [Except.ok.injEq] at hc
    refine ⟨la, ld, ?_⟩
    rw [← h, append_f, regroup_ports_f, hl, hl', hc]
    simp only [List.append_assoc]

/-! ## Clock and reset names that are not ports -/

/-- C8 (counterexample): `clk2` is no port of the scenario module, and with
the clock `clk2` configured `write_module` returns and has written the
header parameter and the clock binding for `clk2`. -/
theorem missing_clock_no_abort :
    "clk2" ∉ scenario_module.ports.map Port.name
    ∧ ∃ w', write_module clk2_writer scenario_module = .ok w'
      ∧ "Clock clk2, " ∈ w'.f
      ∧ "    input_clock clk2() = clk2;\n" ∈ w'.f :=
  ⟨by decide, _, rfl, by decide, by decide⟩

/-- C8, amended: `write_module` looks no clock or reset name up among the
ports. Started with an empty group map it returns exactly when no port that
is neither clock nor reset has a name equal to a configured prefix, whatever
the clock and reset lists name; and when it returns the stream holds the
header and the bindings for all configured clocks and resets. -/
theorem clock_reset_names_not_looked_up (w : BsvWriter) (hw : w.interface_groups = [])
    (m : Module) :
    ((∃ w', write_module w m = .ok w')
      ↔ ∀ port ∈ m.ports, is_clock_or_reset w port.name = false → port.name ∉ w.groups)
    ∧ ∀ w', write_module w m = .ok w' →
        ∃ a b, w'.f = w.f ++ a
          ++ (["import \"BVI\" " ++ m.name ++ "=\n", "module mk" ++ w.interface ++ "#("]
            ++ w.clocks.map (fun c => "Clock " ++ c ++ ", ")
            ++ List.intersperse ", " (w.resets.map (fun r => "Reset " ++ r))
            ++ [")", "(" ++ w.interface ++ ");\n"]
            ++ w.clocks.map (fun c => "    input_clock " ++ c ++ "() = " ++ c ++ ";\n")
            ++ w.resets.map (fun r => "    input_reset " ++ r ++ "() = " ++ r ++ ";\n"))
          ++ b :=
  ⟨write_module_ok_iff w hw m, fun w' h => write_module_ok_f w hw m w' h⟩

theorem clock_reset_names_not_looked_up_witness :
    clk2_writer.interface_groups = []
    ∧ ((∃ w', write_module clk2_writer scenario_module = .ok w')
      ↔ ∀ port ∈ scenario_module.ports,
          is_clock_or_reset clk2_writer port.name = false → port.name ∉ clk2_writer.groups) :=
  ⟨rfl, (clock_reset_names_not_looked_up clk2_writer rfl scenario_module).1⟩

/-! ## Several modules in one run -/

/-- C9: on the modules `a` (port `foo_a`) and `b` (port `foo_b`) with the
group `foo`, `write_module` for `b` alone on a new writer returns, but
`write_design` throws `std::out_of_range` from `port_map.at` in the round
for `b`: the group map still holds `foo_a` from the round for `a`. -/
theorem write_design_keeps_groups :
    (∃ w', write_module foo_writer second_module = .ok w'
      ∧ w'.interface_groups = [("foo", ["foo_b"])])
    ∧ ∃ w', write_design foo_writer [first_module, second_module] = .error (Err.map_at, w')
      ∧ w'.interface_groups = [("foo", ["foo_a", "foo_b"])] :=
  ⟨⟨_, rfl, rfl⟩, ⟨_, rfl, rfl⟩⟩

/-! ## Repeated prefixes -/

theorem count_flatten_appended (groups ports : List String) (g p : String) :
    ((ports.map (appended groups g)).flatten).count p
      = if (find p g).isSome then groups.count g * ports.count p else 0 := by
  induction ports with
  | nil => simp
  | cons q qs ih =>
    rw [List.map_cons, List.flatten_cons, List.count_append, ih]
    unfold appended
    by_cases hqp : q = p
    · subst hqp
      by_cases hf : (find q g).isSome = true
      · simp [hf, List.count_replicate, Nat.mul_add, Nat.add_comm]
      · simp [hf]
    · by_cases hf : (find q g).isSome = true
      · simp [hf, List.count_replicate, hqp, List.count_cons]
      · simp [hf, hqp, List.count_cons]

/-- C10 (counterexample): with the prefix `foo` configured twice the member
list for `foo` holds the port `foo_a` twice, which is not the mapping for
the prefix list `foo`, and the interface block has the method line for
`foo_a` twice. -/
theorem repeated_prefix_repeats_members :
    (regroup_ports foo_writer ["foo", "foo"] ["foo_a"]).interface_groups
        ≠ (regroup_ports foo_writer ["foo"] ["foo_a"]).interface_groups
    ∧ (regroup_ports foo_writer ["foo", "foo"] ["foo_a"]).interface_groups
        = [("foo", ["foo_a", "foo_a"])]
    ∧ ∃ w', generate_interface (BsvWriter.new false [] [] [] ["foo", "foo"] "Top")
          first_module "Top" = .ok w'
        ∧ w'.f.count "   method Action a(Bit#(1) v);\n" = 2 :=
  ⟨by decide, by decide, _, rfl, by decide⟩

/-- Number of occurrences of a member. Started from an
empty map, the port name `p` occurs in the member list of `g` as many times
as `g` occurs in the configured list times `p` occurs in the port list when
`p` contains `g`, and not at all otherwise. -/
theorem member_count (w : BsvWriter) (hw : w.interface_groups = [])
    (groups ports : List String) (g p : String) :
    (((regroup_ports w groups ports).interface_groups.find g).getD []).count p
      = if (find p g).isSome then groups.count g * ports.count p else 0 := by
  have h := members_regroup_ports g groups ports w
  unfold members at h
  rw [h, hw]
  simp only [StdMap.find, Option.getD_none, List.nil_append]
  exact count_flatten_appended groups ports g p

theorem member_count_witness :
    foo_writer.interface_groups = []
    ∧ (((regroup_ports foo_writer ["foo", "foo"] ["foo_a"]).interface_groups.find
          "foo").getD []).count "foo_a"
        = if (find "foo_a" "foo").isSome then
            ["foo", "foo"].count "foo" * ["foo_a"].count "foo_a"
          else 0 :=
  ⟨rfl, member_count foo_writer rfl ["foo", "foo"] ["foo_a"] "foo" "foo_a"⟩

/-! ## Sorting gives one result for all orders of the input -/

theorem ordered_insert_sorted (x : String) (l : List String)
    (h : List.Pairwise (fun a b => str_lt b a = false) l) :
    List.Pairwise (fun a b => str_lt b a = false) (ordered_insert x l) := by
  induction l with
  | nil => simp [ordered_insert]
  | cons y ys ih =>
    rw [List.pairwise_cons] at h
    unfold ordered_insert
    by_cases hyx : str_lt y x = true
    · rw [if_pos hyx]
      refine List.pairwise_cons.mpr ⟨?_, ih h.2⟩
      intro z hz
      rcases List.mem_cons.mp ((ordered_insert_perm x ys).mem_iff.mp hz) with hzx | hzy
      · rw [hzx]; exact str_lt_asymm hyx
      · exact h.1 z hzy
    · rw [if_neg hyx]
      have hyx' : str_lt y x = false := by simpa using hyx
      refine List.pairwise_cons.mpr ⟨?_, List.pairwise_cons.mpr h⟩
      intro z hz
      rcases List.mem_cons.mp hz with hzy | hzy
      · rw [hzy]; exact hyx'
      · have hzy' := h.1 z hzy
        cases hzx : str_lt z x with
        | false => rfl
        | true =>
          by_cases hyz : y = z
          · rw [hyz] at hyx'
            rw [hyx'] at hzx
            exact absurd hzx (by simp)
          · rcases str_lt_total hyz with h1 | h1
            · have := str_lt_trans h1 hzx
              rw [hyx'] at this
              exact absurd this (by simp)
            · rw [hzy'] at h1
              exact absurd h1 (by simp)

theorem std_sort_sorted (l : List String) :
    List.Pairwise (fun a b => str_lt b a = false) (std_sort l) := by
  induction l with
  | nil => exact List.Pairwise.nil
  | cons x xs ih => exact ordered_insert_sorted x _ ih

theorem eq_of_perm_of_ascending (l l' : List String) (hp : List.Perm l l')
    (h : List.Pairwise (fun a b => str_lt b a = false) l)
    (h' : List.Pairwise (fun a b => str_lt b a = false) l') : l = l' := by
  induction l generalizing l' with
  | nil => exact (List.Perm.nil_eq hp)
  | cons x xs ih =>
    cases l' with
    | nil => exact absurd hp.symm (List.Perm.nil_eq · |> fun e => by simp at e)
    | cons y ys =>
      rw [List.pairwise_cons] at h h'
      have hxy : x = y := by
        by_contra hne
        have hx : x ∈ ys := by
          rcases List.mem_cons.mp (hp.mem_iff.mp (List.mem_cons_self x xs)) with e | e
          · exact absurd e hne
          · exact e
        have hy : y ∈ xs := by
          rcases List.mem_cons.mp (hp.mem_iff.mpr (List.mem_cons_self y ys)) with e | e
          · exact absurd e.symm hne
          · exact e
        have h1 := h.1 y hy
        have h2 := h'.1 x hx
        rcases str_lt_total hne with h3 | h3
        · rw [h2] at h3; exact absurd h3 (by simp)
        · rw [h1] at h3; exact absurd h3 (by simp)
      subst hxy
      rw [ih ys (List.Perm.cons_inv hp) h.2 h'.2]

theorem std_sort_eq_of_perm (l l' : List String) (hp : List.Perm l l') :
    std_sort l = std_sort l' :=
  eq_of_perm_of_ascending _ _
    ((std_sort_perm l).trans (hp.trans (std_sort_perm l').symm))
    (std_sort_sorted l) (std_sort_sorted l')

theorem std_sort_filter (l : List String) (q : String → Bool) :
    std_sort (l.filter q) = (std_sort l).filter q :=
  eq_of_perm_of_ascending _ _
    ((std_sort_perm (l.filter q)).trans ((std_sort_perm l).filter q).symm)
    (std_sort_sorted _) ((std_sort_sorted l).filter q)

/-! ## The group map depends on the prefix list as a multiset only -/

theorem regroup_ports_eq_foldl (w : BsvWriter) (groups ports : List String) :
    regroup_ports w groups ports = ports.foldl (regroup_port (std_sort groups)) w := by
  unfold regroup_ports
  by_cases he : groups.isEmpty = true
  · rw [if_pos he]
    have hn : groups = [] := List.isEmpty_iff.mp he
    subst hn
    induction ports with
    | nil => rfl
    | cons p ps ih => rw [List.foldl_cons]; exact ih
  · rw [if_neg he]

theorem regroup_ports_perm (w : BsvWriter) (groups groups' ports : List String)
    (hp : List.Perm groups' groups) :
    regroup_ports w groups' ports = regroup_ports w groups ports := by
  rw [regroup_ports_eq_foldl, regroup_ports_eq_foldl, std_sort_eq_of_perm _ _ hp]

theorem regroup_step_set_groups (p g : String) (w : BsvWriter) (gs : List String) :
    regroup_step p { w with groups := gs } g = { regroup_step p w g with groups := gs } := by
  unfold regroup_step
  split_ifs <;> rfl

theorem regroup_port_set_groups (p : String) (l : List String) (w : BsvWriter)
    (gs : List String) :
    regroup_port l { w with groups := gs } p = { regroup_port l w p with groups := gs } := by
  unfold regroup_port
  induction l generalizing w with
  | nil => rfl
  | cons g l ih => rw [List.foldl_cons, List.foldl_cons, regroup_step_set_groups, ih]

theorem foldl_regroup_port_set_groups (l ps : List String) (w : BsvWriter)
    (gs : List String) :
    ps.foldl (regroup_port l) { w with groups := gs }
      = { ps.foldl (regroup_port l) w with groups := gs } := by
  induction ps generalizing w with
  | nil => rfl
  | cons p ps ih => rw [List.foldl_cons, List.foldl_cons, regroup_port_set_groups, ih]

theorem regroup_ports_set_groups (w : BsvWriter) (groups ports gs : List String) :
    regroup_ports { w with groups := gs } groups ports
      = { regroup_ports w groups ports with groups := gs } := by
  rw [regroup_ports_eq_foldl, regroup_ports_eq_foldl, foldl_regroup_port_set_groups]

theorem stream_emit (w : BsvWriter) (t : Trace) :
    Outcome.stream (emit w t)
      = match t with
        | .ok l => .ok (w.f ++ l)
        | .error (e, l) => .error (e, w.f ++ l) := by
  cases t with
  | ok l => rfl
  | error y => rfl

theorem stream_emit_congr (w w' : BsvWriter) (t : Trace) (h : w'.f = w.f) :
    Outcome.stream (emit w' t) = Outcome.stream (emit w t) := by
  rw [stream_emit, stream_emit, h]

theorem write_module_set_groups (w : BsvWriter) (hw : w.interface_groups = []) (m : Module)
    (gs : List String)
    (h : (regroup_ports w gs (collect_ports w m).ports).interface_groups
      = (regroup_ports w w.groups (collect_ports w m).ports).interface_groups) :
    Outcome.stream (write_module { w with groups := gs } m)
      = Outcome.stream (write_module w m) := by
  have hs : sorted_keys w.interface_groups := by rw [hw]; exact sorted_keys_nil
  have hs' : sorted_keys (BsvWriter.interface_groups { w with groups := gs }) := hs
  rw [write_module_eq w m hs, write_module_eq _ m hs']
  have hc : collect_ports { w with groups := gs } m = collect_ports w m := rfl
  have hm : ∀ igs, module_trace { w with groups := gs } m igs = module_trace w m igs :=
    fun _ => rfl
  rw [hc, hm]
  have hg : BsvWriter.groups { w with groups := gs } = gs := rfl
  rw [hg, regroup_ports_set_groups]
  have hig : BsvWriter.interface_groups
      { regroup_ports w gs (collect_ports w m).ports with groups := gs }
      = (regroup_ports w w.groups (collect_ports w m).ports).interface_groups := h
  rw [hig]
  apply stream_emit_congr
  show (regroup_ports w gs (collect_ports w m).ports).f = _
  rw [regroup_ports_f, regroup_ports_f]

/-- C19 (group-order independence): started with an empty group map,
`write_module` puts the same chunks in the stream, and throws the same
exception if it throws, for every permutation of the configured group list;
so the text is the same byte for byte. -/
theorem group_order_independence (w : BsvWriter) (hw : w.interface_groups = [])
    (m : Module) (groups' : List String) (hp : List.Perm groups' w.groups) :
    Outcome.stream (write_module { w with groups := groups' } m)
        = Outcome.stream (write_module w m)
    ∧ ∀ w1 w2, write_module { w with groups := groups' } m = .ok w1 →
        write_module w m = .ok w2 → w1.text = w2.text := by
  have h := write_module_set_groups w hw m groups'
    (by rw [regroup_ports_perm w w.groups groups' _ hp])
  refine ⟨h, ?_⟩
  intro w1 w2 h1 h2
  rw [h1, h2] at h
  simp only [Outcome.stream, Except.ok.injEq] at h
  unfold BsvWriter.text
  rw [h]

theorem group_order_independence_witness :
    scenario_writer.interface_groups = []
    ∧ List.Perm ["bar", "foo"] scenario_writer.groups
    ∧ Outcome.stream (write_module { scenario_writer with groups := ["bar", "foo"] }
          scenario_module)
        = Outcome.stream (write_module scenario_writer scenario_module) :=
  ⟨rfl, List.Perm.swap "foo" "bar" [],
    (group_order_independence scenario_writer rfl scenario_module ["bar", "foo"]
      (List.Perm.swap "foo" "bar" [])).1⟩

/-! ## Prefixes that no port contains -/

theorem regroup_step_find_nonempty (p g : String) (w : BsvWriter)
    (hw : ∀ k l, w.interface_groups.find k = some l → l ≠ []) :
    ∀ k l, (regroup_step p w g).interface_groups.find k = some l → l ≠ [] := by
  unfold regroup_step
  split_ifs
  · intro k l hk
    simp only [StdMap.index, StdMap.find_modify, StdMap.find_emplace] at hk
    by_cases h : k = g
    · simp only [h, if_true, Option.map_some', Option.some.injEq] at hk
      rw [← hk]
      simp
    · simp only [h, if_false] at hk
      exact hw k l hk
  · exact hw

theorem regroup_ports_find_nonempty (w : BsvWriter) (hw : w.interface_groups = [])
    (groups ports : List String) :
    ∀ k l, (regroup_ports w groups ports).interface_groups.find k = some l → l ≠ [] := by
  rw [regroup_ports_eq_foldl]
  have hport : ∀ (p : String) (gs : List String) (w' : BsvWriter),
      (∀ k l, w'.interface_groups.find k = some l → l ≠ []) →
      ∀ k l, (regroup_port gs w' p).interface_groups.find k = some l → l ≠ [] := by
    intro p gs
    unfold regroup_port
    induction gs with
    | nil => intro w' h; exact h
    | cons g gs ih =>
      intro w' h
      rw [List.foldl_cons]
      exact ih _ (regroup_step_find_nonempty p g w' h)
  have hall : ∀ (ps : List String) (w' : BsvWriter),
      (∀ k l, w'.interface_groups.find k = some l → l ≠ []) →
      ∀ k l, (ps.foldl (regroup_port (std_sort groups)) w').interface_groups.find k = some l
        → l ≠ [] := by
    intro ps
    induction ps with
    | nil => intro w' h; exact h
    | cons p ps ih =>
      intro w' h
      rw [List.foldl_cons]
      exact ih _ (hport p _ w' h)
  apply hall ports w
  intro k l hk
  rw [hw] at hk
  simp [StdMap.find] at hk

theorem find_regroup_ports_isSome_iff (w : BsvWriter) (hw : w.interface_groups = [])
    (groups ports : List String) (g : String) :
    (∃ l, (regroup_ports w groups ports).interface_groups.find g = some l)
      ↔ g ∈ groups ∧ ∃ p ∈ ports, (find p g).isSome = true := by
  constructor
  · rintro ⟨l, hl⟩
    have hne := regroup_ports_find_nonempty w hw groups ports g l hl
    obtain ⟨p, hp⟩ := List.exists_mem_of_ne_nil l hne
    have hm : p ∈ members (regroup_ports w groups ports).interface_groups g := by
      simpa [members, hl] using hp
    obtain ⟨h1, h2, h3⟩ := (mem_members_regroup_ports w hw groups ports g p).mp hm
    exact ⟨h2, p, h1, h3⟩
  · rintro ⟨hg, p, hp, hf⟩
    have hm := (mem_members_regroup_ports w hw groups ports g p).mpr ⟨hp, hg, hf⟩
    unfold members at hm
    cases hl : (regroup_ports w groups ports).interface_groups.find g with
    | none => rw [hl] at hm; exact absurd hm (List.not_mem_nil p)
    | some l => exact ⟨l, rfl⟩

theorem regroup_ports_drop_unmatched (w : BsvWriter) (groups ports : List String)
    (g : String) (hg : ∀ p ∈ ports, (find p g).isSome = false) :
    regroup_ports w (groups.filter (fun x => x ≠ g)) ports = regroup_ports w groups ports := by
  rw [regroup_ports_eq_foldl, regroup_ports_eq_foldl, std_sort_filter]
  generalize std_sort groups = gs
  induction ports generalizing w with
  | nil => rfl
  | cons p ps ih =>
    rw [List.foldl_cons, List.foldl_cons]
    have hp : regroup_port (gs.filter (fun x => x ≠ g)) w p = regroup_port gs w p := by
      unfold regroup_port
      apply foldl_filter_noop
      intro b x hx
      have hxg : x = g := by simpa using hx
      unfold regroup_step
      rw [hxg, hg p (List.mem_cons_self p ps)]
      simp
    rw [hp]
    exact ih _ (fun q hq => hg q (List.mem_cons_of_mem p hq))

theorem generate_interface_set_groups (w : BsvWriter) (m : Module) (i : String)
    (gs : List String)
    (h : (regroup_ports w gs (collect_ports w m).ports).interface_groups
      = (regroup_ports w w.groups (collect_ports w m).ports).interface_groups) :
    Outcome.stream (generate_interface { w with groups := gs } m i)
      = Outcome.stream (generate_interface w m i) := by
  rw [generate_interface_eq, generate_interface_eq]
  have hc : collect_ports { w with groups := gs } m = collect_ports w m := rfl
  have hg : BsvWriter.groups { w with groups := gs } = gs := rfl
  rw [hc, hg, regroup_ports_set_groups]
  have hig : BsvWriter.interface_groups
      { regroup_ports w gs (collect_ports w m).ports with groups := gs }
      = (regroup_ports w w.groups (collect_ports w m).ports).interface_groups := h
  rw [hig]
  apply stream_emit_congr
  show (regroup_ports w gs (collect_ports w m).ports).f = _
  rw [regroup_ports_f, regroup_ports_f]

/-- C11 (counterexample): with the prefixes `foo` and `bar` and the single
port `foo_a`, the group map has no entry for `bar`, and `generate_interface`
writes no interface block and no aggregate field for `bar`. -/
theorem unmatched_prefix_has_no_entry :
    (∀ port ∈ first_module.ports, (find port.name "bar").isSome = false)
    ∧ ∃ w', generate_interface foo_bar_writer first_module "Top" = .ok w'
      ∧ w'.interface_groups = [("foo", ["foo_a"])]
      ∧ w'.interface_groups.find "bar" = none
      ∧ "interface Bar;\n" ∉ w'.f
      ∧ "    interface Bar bar;\n" ∉ w'.f :=
  ⟨by decide, _, rfl, rfl, rfl, by decide, by decide⟩

/-- C11, amended: started with an empty group map, a configured prefix that
no port that is neither clock nor reset contains gets no entry in the group
map (an entry is made when the first port is appended, so no entry has an
empty member list), and `generate_interface` writes no interface block and
no aggregate field for it: the stream is the same as without that prefix
in the configured list. -/
theorem unmatched_prefix_not_emitted (w : BsvWriter) (hw : w.interface_groups = [])
    (m : Module) (g : String)
    (hg : ∀ port ∈ m.ports, is_clock_or_reset w port.name = false →
      (find port.name g).isSome = false) :
    (regroup_ports w w.groups (collect_ports w m).ports).interface_groups.find g = none
    ∧ (∀ k l, (regroup_ports w w.groups (collect_ports w m).ports).interface_groups.find k
          = some l → l ≠ [])
    ∧ (∀ e ∈ (regroup_ports w w.groups (collect_ports w m).ports).interface_groups,
          e.1 ≠ g)
    ∧ Outcome.stream
          (generate_interface { w with groups := w.groups.filter (fun x => x ≠ g) } m
            w.interface)
        = Outcome.stream (generate_interface w m w.interface) := by
  have hg' : ∀ p ∈ (collect_ports w m).ports, (find p g).isSome = false := by
    intro p hp
    rw [collect_ports_ports] at hp
    obtain ⟨port, hport, rfl⟩ := List.mem_map.mp hp
    unfold regular_ports at hport
    obtain ⟨h1, h2⟩ := List.mem_filter.mp hport
    exact hg port h1 (by simpa using h2)
  have hnone : (regroup_ports w w.groups (collect_ports w m).ports).interface_groups.find g
      = none := by
    cases hl : (regroup_ports w w.groups (collect_ports w m).ports).interface_groups.find g with
    | none => rfl
    | some l =>
      obtain ⟨_, p, hp, hf⟩ := (find_regroup_ports_isSome_iff w hw _ _ g).mp ⟨l, hl⟩
      rw [hg' p hp] at hf
      exact absurd hf (by simp)
  refine ⟨hnone, regroup_ports_find_nonempty w hw _ _, ?_, ?_⟩
  · intro e he heg
    have hs := regroup_ports_sorted w w.groups (collect_ports w m).ports
      (by rw [hw]; exact sorted_keys_nil)
    have := StdMap.find_of_mem _ e hs he
    rw [heg, hnone] at this
    exact absurd this (by simp)
  · apply generate_interface_set_groups
    rw [regroup_ports_drop_unmatched w w.groups _ g hg']

theorem unmatched_prefix_not_emitted_witness :
    foo_bar_writer.interface_groups = []
    ∧ (∀ port ∈ first_module.ports, is_clock_or_reset foo_bar_writer port.name = false →
        (find port.name "bar").isSome = false)
    ∧ (regroup_ports foo_bar_writer foo_bar_writer.groups
        (collect_ports foo_bar_writer first_module).ports).interface_groups.find "bar"
      = none :=
  ⟨rfl, by decide,
    (unmatched_prefix_not_emitted foo_bar_writer rfl first_module "bar" (by decide)).1⟩

/-! ## No groups configured -/

theorem regroup_ports_nil (w : BsvWriter) (ports : List String) :
    regroup_ports w [] ports = w := by
  unfold regroup_ports
  simp

/-- C12 (empty groups): with an empty configured group list and an empty
group map, `generate_interface` writes only the aggregate interface without
fields (the annotation line, `interface <Top>;` and `endinterface`), and
`write_module` writes after it only the header with the clock and reset
bindings, the schedule and `endmodule`: no interface block and no binding
block for a group. -/
theorem empty_groups (w : BsvWriter) (hw : w.interface_groups = []) (hg : w.groups = [])
    (m : Module) (i : String) :
    generate_interface w m i
        = .ok (w.append ["(* always_ready, always_enabled *)\n",
            "interface " ++ to_type_name i ++ ";\n", "endinterface\n"])
    ∧ write_module w m
        = .ok (w.append (["(* always_ready, always_enabled *)\n",
            "interface " ++ to_type_name w.interface ++ ";\n", "endinterface\n"]
            ++ header_chunks w.clocks w.resets w.interface m.name
            ++ schedule_chunks (schedule_ports w m) ++ ["endmodule\n"])) := by
  have hs : sorted_keys w.interface_groups := by rw [hw]; exact sorted_keys_nil
  constructor
  · rw [generate_interface_eq, hg, regroup_ports_nil, hw]
    simp [interface_trace, Trace.all, Trace.seq, aggregate_chunks, emit]
  · rw [write_module_eq w m hs, hg, regroup_ports_nil, hw, schedule_ports_eq]
    simp [module_trace, interface_trace, Trace.all, Trace.seq, aggregate_chunks, emit]

theorem empty_groups_witness :
    (BsvWriter.new false ["clk"] ["rst"] [] [] "Top").interface_groups = []
    ∧ (BsvWriter.new false ["clk"] ["rst"] [] [] "Top").groups = []
    ∧ generate_interface (BsvWriter.new false ["clk"] ["rst"] [] [] "Top") scenario_module
          "Top"
        = .ok ((BsvWriter.new false ["clk"] ["rst"] [] [] "Top").append
            ["(* always_ready, always_enabled *)\n",
              "interface " ++ to_type_name "Top" ++ ";\n", "endinterface\n"]) :=
  ⟨rfl, rfl,
    (empty_groups (BsvWriter.new false ["clk"] ["rst"] [] [] "Top") rfl rfl scenario_module
      "Top").1⟩

/-! ## The text of a module that is generated without a throw -/

theorem Trace.all_eq_ok {α : Type} (act : α → Trace) (fn : α → List String) (xs : List α)
    (h : ∀ x ∈ xs, act x = .ok (fn x)) : Trace.all act xs = .ok (xs.flatMap fn) := by
  induction xs with
  | nil => rfl
  | cons x xs ih =>
    simp only [Trace.all, List.flatMap_cons]
    rw [h x (List.mem_cons_self x xs), ih (fun y hy => h y (List.mem_cons_of_mem x hy))]
    rfl

theorem direction_of_cases (wire : Wire) :
    direction_of wire = "input" ∨ direction_of wire = "output"
      ∨ direction_of wire = "inout" := by
  unfold direction_of
  cases wire.port_input <;> cases wire.port_output <;> simp

theorem interface_method_trace_decl (w : BsvWriter) (m : Module) (g p : String) (port : Port)
    (hfind : m.ports.find? (fun n => n.name = p) = some port)
    (hreg : is_clock_or_reset w p = false) (hlen : g.length + 1 ≤ p.length) :
    interface_method_trace (collect_ports w m) g p
      = .ok (spec_interface_lines (decl_of m g p)) := by
  have hkeep : (regular_ports w m).find? (fun n => n.name = p) = some port := by
    unfold regular_ports
    rw [find?_filter_name m.ports (fun s => !is_clock_or_reset w s) p (by simp [hreg])]
    exact hfind
  have hsub : substr p (g.length + 1) = .ok ⟨p.data.drop (g.length + 1)⟩ := by
    unfold substr
    rw [if_neg (by omega)]
  unfold interface_method_trace StdMap.map_at
  rw [collect_ports_map, collect_ports_sizes, hkeep]
  simp only [Option.map_some', hsub]
  unfold decl_of spec_interface_lines Decl.method_name
  rw [hfind]
  have hne1 : ("output" : String) ≠ "input" := by decide
  have hne2 : ("inout" : String) ≠ "input" := by decide
  have hne3 : ("inout" : String) ≠ "output" := by decide
  rcases direction_of_cases port.wire with hd | hd | hd <;> simp [hd, hne1, hne2, hne3]

theorem instance_signal_trace_decl (m : Module) (g p : String) (port : Port)
    (hfind : m.ports.find? (fun n => n.name = p) = some port)
    (hlen : g.length + 1 ≤ p.length) :
    instance_signal_trace (instance_portmap m) g p
      = .ok (spec_binding_lines (decl_of m g p)) := by
  have hsub : substr p (g.length + 1) = .ok ⟨p.data.drop (g.length + 1)⟩ := by
    unfold substr
    rw [if_neg (by omega)]
  unfold instance_signal_trace StdMap.map_at
  rw [instance_portmap_find, hfind]
  simp only [hsub]
  unfold decl_of spec_binding_lines Decl.method_name
  rw [hfind]
  have hne1 : ("output" : String) ≠ "input" := by decide
  have hne2 : ("inout" : String) ≠ "input" := by decide
  have hne3 : ("inout" : String) ≠ "output" := by decide
  rcases direction_of_cases port.wire with hd | hd | hd <;> simp [hd, hne1, hne2, hne3]

theorem member_facts (w : BsvWriter) (m : Module) (s : String)
    (h1 : ∃ id, (collect_ports w m).port_map.find s = some id)
    (h2 : ∃ id, (instance_portmap m).find s = some id) :
    is_clock_or_reset w s = false ∧ ∃ port, m.ports.find? (fun n => n.name = s) = some port := by
  obtain ⟨id, hid⟩ := h1
  obtain ⟨id', hid'⟩ := h2
  rw [collect_ports_map] at hid
  rw [instance_portmap_find] at hid'
  refine ⟨?_, id', hid'⟩
  have hmem := List.mem_of_find?_eq_some hid
  have hname : id.name = s := by simpa using List.find?_some hid
  unfold regular_ports at hmem
  have := (List.mem_filter.mp hmem).2
  rw [hname] at this
  simpa using this

theorem flatMap_map_decl {α β : Type} (f : α → β) (g : β → List String) (xs : List α) :
    (xs.map f).flatMap g = xs.flatMap (fun x => g (f x)) := by
  induction xs with
  | nil => rfl
  | cons x xs ih => simp [List.flatMap_cons, ih]

theorem module_trace_eq_spec (w : BsvWriter) (m : Module) (igs : StdMap (List String))
    (hall : ∀ e ∈ igs, ∀ s ∈ e.2,
      (∃ id, (collect_ports w m).port_map.find s = some id)
      ∧ (∃ n, (collect_ports w m).port_sizes.find s = some n)
      ∧ (∃ id, (instance_portmap m).find s = some id)
      ∧ e.1.length + 1 ≤ s.length) :
    module_trace w m igs
      = .ok (igs.flatMap (fun e => spec_interface_block e.1 (e.2.map (decl_of m e.1)))
          ++ aggregate_chunks igs w.interface
          ++ header_chunks w.clocks w.resets w.interface m.name
          ++ igs.flatMap (fun e => spec_binding_block e.1 (e.2.map (decl_of m e.1)))
          ++ schedule_chunks ((regular_ports w m).map Port.name) ++ ["endmodule\n"]) := by
  have hi : Trace.all (interface_group_trace (collect_ports w m)) igs
      = .ok (igs.flatMap (fun e => spec_interface_block e.1 (e.2.map (decl_of m e.1)))) := by
    apply Trace.all_eq_ok
    intro e he
    unfold interface_group_trace spec_interface_block
    rw [Trace.all_eq_ok (interface_method_trace (collect_ports w m) e.1)
      (fun p => spec_interface_lines (decl_of m e.1 p)) e.2]
    · simp [Trace.seq, flatMap_map_decl]
    · intro s hs
      obtain ⟨h1, _, h3, h4⟩ := hall e he s hs
      obtain ⟨hreg, port, hport⟩ := member_facts w m s h1 h3
      exact interface_method_trace_decl w m e.1 s port hport hreg h4
  have hb : Trace.all (fun ig => instance_trace (instance_portmap m) ig.1 ig.2) igs
      = .ok (igs.flatMap (fun e => spec_binding_block e.1 (e.2.map (decl_of m e.1)))) := by
    apply Trace.all_eq_ok
    intro e he
    unfold instance_trace spec_binding_block
    rw [Trace.all_eq_ok (instance_signal_trace (instance_portmap m) e.1)
      (fun p => spec_binding_lines (decl_of m e.1 p)) e.2]
    · simp [Trace.seq, flatMap_map_decl]
    · intro s hs
      obtain ⟨h1, _, h3, h4⟩ := hall e he s hs
      obtain ⟨_, port, hport⟩ := member_facts w m s h1 h3
      exact instance_signal_trace_decl m e.1 s port hport h4
  unfold module_trace interface_trace
  rw [hi, hb]
  simp [Trace.seq, List.append_assoc]

theorem write_module_ok_eq_spec (w : BsvWriter) (hw : w.interface_groups = []) (m : Module)
    (w' : BsvWriter) (h : write_module w m = .ok w') :
    w' = (regroup_ports w w.groups (collect_ports w m).ports).append
      ((regroup_ports w w.groups (collect_ports w m).ports).interface_groups.flatMap
          (fun e => spec_interface_block e.1 (e.2.map (decl_of m e.1)))
        ++ aggregate_chunks (regroup_ports w w.groups (collect_ports w m).ports).interface_groups
            w.interface
        ++ header_chunks w.clocks w.resets w.interface m.name
        ++ (regroup_ports w w.groups (collect_ports w m).ports).interface_groups.flatMap
            (fun e => spec_binding_block e.1 (e.2.map (decl_of m e.1)))
        ++ schedule_chunks ((regular_ports w m).map Port.name) ++ ["endmodule\n"]) := by
  have hs : sorted_keys w.interface_groups := by rw [hw]; exact sorted_keys_nil
  rw [write_module_eq w m hs] at h
  have hok := (emit_ok_iff _ _).mp ⟨w', h⟩
  have hall := (module_trace_ok_iff w m _).mp hok
  rw [module_trace_eq_spec w m _ hall] at h
  simp only [emit, Except.ok.injEq] at h
  exact h.symm

/-! ## Interface and binding -/

/-- C20 (interface and binding agree): when `write_module`, started with an
empty group map, returns, the interface block and the binding block of every
group are the two renderings of one and the same sequence of declarations,
one per member in member order. A declaration with a method name (input or
output) gives exactly one method line in the interface block and exactly one
`method` line in the binding block, both for that name; a declaration
without one (inout) gives no line in the interface block and no `method`
line in the binding block. -/
theorem interface_and_binding_agree (w : BsvWriter) (hw : w.interface_groups = [])
    (m : Module) (w' : BsvWriter) (h : write_module w m = .ok w') :
    (∃ igs : StdMap (List String),
      igs = (regroup_ports w w.groups (collect_ports w m).ports).interface_groups
      ∧ w'.f = w.f
        ++ (igs.flatMap (fun e => spec_interface_block e.1 (e.2.map (decl_of m e.1)))
          ++ aggregate_chunks igs w.interface
          ++ header_chunks w.clocks w.resets w.interface m.name
          ++ igs.flatMap (fun e => spec_binding_block e.1 (e.2.map (decl_of m e.1)))
          ++ schedule_chunks (schedule_ports w m) ++ ["endmodule\n"]))
    ∧ ∀ d : Decl,
        (∀ n, d.method_name = some n →
          (spec_interface_lines d
              = ["   method Action " ++ n ++ "(Bit#(" ++ fmt_lu d.size ++ ") v);\n"]
            ∨ spec_interface_lines d
              = ["   method Bit#(" ++ fmt_lu d.size ++ ") " ++ n ++ "();\n"])
          ∧ (spec_binding_lines d
              = ["        method " ++ n ++ "(" ++ n ++ ") enable((*in_high*) EN_" ++ n
                  ++ ");\n"]
            ∨ spec_binding_lines d = ["        method " ++ n ++ " " ++ n ++ "();\n"]))
        ∧ (d.method_name = none →
          spec_interface_lines d = []
          ∧ (spec_binding_lines d = ["        inout " ++ d.name ++ ";\n"]
            ∨ spec_binding_lines d = [])) := by
  refine ⟨⟨_, rfl, ?_⟩, ?_⟩
  · rw [write_module_ok_eq_spec w hw m w' h, append_f, regroup_ports_f, schedule_ports_eq]
  · intro d
    constructor
    · intro n hn
      unfold spec_interface_lines spec_binding_lines
      rw [hn]
      by_cases hd : d.direction = "input" <;> simp [hd]
    · intro hn
      unfold spec_interface_lines spec_binding_lines
      rw [hn]
      by_cases hd : d.direction = "inout" <;> simp [hd]

theorem interface_and_binding_agree_witness :
    foo_writer.interface_groups = []
    ∧ write_module foo_writer first_module = .ok first_module_output
    ∧ ∃ igs : StdMap (List String),
      igs = (regroup_ports foo_writer foo_writer.groups
          (collect_ports foo_writer first_module).ports).interface_groups
      ∧ first_module_output.f = foo_writer.f
        ++ (igs.flatMap
              (fun e => spec_interface_block e.1 (e.2.map (decl_of first_module e.1)))
          ++ aggregate_chunks igs foo_writer.interface
          ++ header_chunks foo_writer.clocks foo_writer.resets foo_writer.interface
              first_module.name
          ++ igs.flatMap
              (fun e => spec_binding_block e.1 (e.2.map (decl_of first_module e.1)))
          ++ schedule_chunks (schedule_ports foo_writer first_module) ++ ["endmodule\n"]) :=
  ⟨rfl, rfl,
    (interface_and_binding_agree foo_writer rfl first_module first_module_output rfl).1⟩

/-! ## The order of `std::string` is the lexicographic order -/

theorem lt_chars_iff_lex (a b : List Char) :
    lt_chars a b = true
      ↔ (∃ t, t ≠ [] ∧ b = a ++ t)
        ∨ ∃ pre x y s t, a = pre ++ x :: s ∧ b = pre ++ y :: t ∧ x.toNat < y.toNat := by
  induction a generalizing b with
  | nil =>
    cases b with
    | nil =>
      simp only [lt_chars, Bool.false_eq_true, false_iff]
      rintro (⟨t, ht, h⟩ | ⟨pre, x, y, s, t, h, _⟩)
      · exact ht (by simpa using h.symm)
      · simp at h
    | cons y ys =>
      simp only [lt_chars, true_iff]
      exact Or.inl ⟨y :: ys, by simp, rfl⟩
  | cons x xs ih =>
    cases b with
    | nil =>
      simp only [lt_chars, Bool.false_eq_true, false_iff]
      rintro (⟨t, _, h⟩ | ⟨pre, x', y', s, t, _, h, _⟩)
      · simp at h
      · simp at h
    | cons y ys =>
      simp only [lt_chars]
      by_cases h1 : x.toNat < y.toNat
      · simp only [h1, if_true, true_iff]
        exact Or.inr ⟨[], x, y, xs, ys, rfl, rfl, h1⟩
      · by_cases h2 : y.toNat < x.toNat
        · simp only [h1, h2, if_true, if_false, Bool.false_eq_true, false_iff]
          rintro (⟨t, _, h⟩ | ⟨pre, x', y', s, t, ha, hb, hlt⟩)
          · simp only [List.cons_append, List.cons.injEq] at h
            rw [h.1] at h2
            omega
          · cases pre with
            | nil =>
              simp only [List.nil_append, List.cons.injEq] at ha hb
              rw [← ha.1, ← hb.1] at hlt
              omega
            | cons c pre' =>
              simp only [List.cons_append, List.cons.injEq] at ha hb
              rw [ha.1, hb.1] at h2
              omega
        · have hxy : x = y := char_toNat_inj (by omega)
          subst hxy
          simp only [h1, if_false, ih ys]
          constructor
          · rintro (⟨t, ht, h⟩ | ⟨pre, x', y', s, t, ha, hb, hlt⟩)
            · exact Or.inl ⟨t, ht, by simp [h]⟩
            · exact Or.inr ⟨x :: pre, x', y', s, t, by simp [ha], by simp [hb], hlt⟩
          · rintro (⟨t, ht, h⟩ | ⟨pre, x', y', s, t, ha, hb, hlt⟩)
            · simp only [List.cons_append, List.cons.injEq, true_and] at h
              exact Or.inl ⟨t, ht, h⟩
            · cases pre with
              | nil =>
                simp only [List.nil_append, List.cons.injEq] at ha hb
                rw [← ha.1, ← hb.1] at hlt
                omega
              | cons c pre' =>
                simp only [List.cons_append, List.cons.injEq] at ha hb
                exact Or.inr ⟨pre', x', y', s, t, ha.2, hb.2, hlt⟩

theorem str_lt_iff_lex (a b : String) :
    str_lt a b = true
      ↔ (∃ t, t ≠ [] ∧ b.data = a.data ++ t)
        ∨ ∃ pre x y s t, a.data = pre ++ x :: s ∧ b.data = pre ++ y :: t
            ∧ x.toNat < y.toNat :=
  lt_chars_iff_lex a.data b.data

/-! ## Order of emission -/

theorem mem_keys_iff_find {α : Type} (m : StdMap α) (hs : sorted_keys m) (g : String) :
    g ∈ m.map Prod.fst ↔ ∃ l, m.find g = some l := by
  constructor
  · intro hg
    obtain ⟨e, he, heg⟩ := List.mem_map.mp hg
    exact ⟨e.2, heg ▸ StdMap.find_of_mem m e hs he⟩
  · rintro ⟨l, hl⟩
    exact List.mem_map.mpr ⟨(g, l), StdMap.mem_of_find m g l hl, rfl⟩

theorem mem_collect_ports_iff (w : BsvWriter) (m : Module) (n : String) :
    n ∈ (collect_ports w m).ports
      ↔ ∃ port ∈ m.ports, is_clock_or_reset w port.name = false ∧ port.name = n := by
  rw [collect_ports_ports]
  unfold regular_ports
  simp only [List.mem_map, List.mem_filter, Bool.not_eq_true']
  constructor
  · rintro ⟨port, ⟨hp, hr⟩, rfl⟩
    exact ⟨port, hp, hr, rfl⟩
  · rintro ⟨port, hp, hr, rfl⟩
    exact ⟨port, ⟨hp, hr⟩, rfl⟩

theorem keys_regroup_ports (w : BsvWriter) (hw : w.interface_groups = []) (m : Module)
    (g : String) :
    g ∈ (regroup_ports w w.groups (collect_ports w m).ports).interface_groups.map Prod.fst
      ↔ g ∈ w.groups ∧ ∃ port ∈ m.ports,
          is_clock_or_reset w port.name = false ∧ (find port.name g).isSome = true := by
  have hs := regroup_ports_sorted w w.groups (collect_ports w m).ports
    (by rw [hw]; exact sorted_keys_nil)
  rw [mem_keys_iff_find _ hs, find_regroup_ports_isSome_iff w hw]
  constructor
  · rintro ⟨hg, p, hp, hf⟩
    obtain ⟨port, hport, hreg, rfl⟩ := (mem_collect_ports_iff w m p).mp hp
    exact ⟨hg, port, hport, hreg, hf⟩
  · rintro ⟨hg, port, hport, hreg, hf⟩
    exact ⟨hg, port.name, (mem_collect_ports_iff w m _).mpr ⟨port, hport, hreg, rfl⟩, hf⟩

/-- C13 (sorted emission order): started with an empty group map,
`write_module` runs its three loops over one and the same list of entries
`igs`: the interface blocks, then the fields of the aggregate interface, then
the binding blocks, each block and field naming the prefix of its entry. The
keys of `igs` are strictly ascending in the order of `std::string`, which
is the lexicographic order by character code, whatever the order of the
configured list, and they are the configured prefixes that some port that is
neither clock nor reset contains. -/
theorem sorted_emission_order (w : BsvWriter) (hw : w.interface_groups = []) (m : Module) :
    ∃ igs : StdMap (List String),
      igs = (regroup_ports w w.groups (collect_ports w m).ports).interface_groups
      ∧ List.Pairwise (fun a b => str_lt a.1 b.1 = true) igs
      ∧ (∀ g, g ∈ igs.map Prod.fst
          ↔ g ∈ w.groups ∧ ∃ port ∈ m.ports,
              is_clock_or_reset w port.name = false ∧ (find port.name g).isSome = true)
      ∧ write_module w m
          = emit (regroup_ports w w.groups (collect_ports w m).ports)
              (Trace.seq
                (Trace.seq (Trace.all (interface_group_trace (collect_ports w m)) igs)
                  (.ok (["(* always_ready, always_enabled *)\n",
                      "interface " ++ to_type_name w.interface ++ ";\n"]
                    ++ igs.map aggregate_field ++ ["endinterface\n"])))
                (Trace.seq (.ok (header_chunks w.clocks w.resets w.interface m.name))
                  (Trace.seq
                    (Trace.all (fun ig => instance_trace (instance_portmap m) ig.1 ig.2) igs)
                    (.ok (schedule_chunks (schedule_ports w m) ++ ["endmodule\n"])))))
      ∧ (∀ t ig, interface_group_trace t ig
          = Trace.seq (.ok ["(* always_ready, always_enabled *)\n",
              "interface " ++ to_type_name ig.1 ++ ";\n"])
            (Trace.seq (Trace.all (interface_method_trace t ig.1) ig.2)
              (.ok ["endinterface\n"])))
      ∧ (∀ ig, aggregate_field ig
          = "    interface " ++ to_type_name ig.1 ++ " " ++ ig.1 ++ ";\n")
      ∧ (∀ pm g signals, instance_trace pm g signals
          = Trace.seq (.ok ["    interface " ++ to_type_name g ++ " " ++ g ++ ";\n"])
            (Trace.seq (Trace.all (instance_signal_trace pm g) signals)
              (.ok ["    endinterface\n"])))
      ∧ (∀ a b : String, str_lt a b = true
          ↔ (∃ t, t ≠ [] ∧ b.data = a.data ++ t)
            ∨ ∃ pre x y s t, a.data = pre ++ x :: s ∧ b.data = pre ++ y :: t
                ∧ x.toNat < y.toNat) := by
  have hs : sorted_keys w.interface_groups := by rw [hw]; exact sorted_keys_nil
  refine ⟨_, rfl, regroup_ports_sorted w _ _ hs, keys_regroup_ports w hw m, ?_,
    fun _ _ => rfl, fun _ => rfl, fun _ _ _ => rfl, str_lt_iff_lex⟩
  rw [write_module_eq w m hs, schedule_ports_eq]
  rfl

theorem sorted_emission_order_witness :
    scenario_writer.interface_groups = []
    ∧ ∃ igs : StdMap (List String),
      igs = (regroup_ports scenario_writer scenario_writer.groups
          (collect_ports scenario_writer scenario_module).ports).interface_groups
      ∧ List.Pairwise (fun a b => str_lt a.1 b.1 = true) igs
      ∧ igs.map Prod.fst = ["bar", "foo"] :=
  ⟨rfl,
    (sorted_emission_order scenario_writer rfl scenario_module).elim
      (fun igs h => ⟨igs, h.1, h.2.1, by rw [h.1]; decide⟩)⟩

/-! ## When `generate_interface` returns -/

theorem interface_trace_ok_iff (t : PortTables) (igs : StdMap (List String)) (i : String) :
    (∃ l, interface_trace t igs i = .ok l)
      ↔ ∀ e ∈ igs, ∀ s ∈ e.2,
          (∃ id, t.port_map.find s = some id) ∧ (∃ n, t.port_sizes.find s = some n)
          ∧ e.1.length + 1 ≤ s.length := by
  unfold interface_trace interface_group_trace
  simp only [Trace.seq_ok_iff, Trace.all_ok_iff, interface_method_trace_ok_iff]
  constructor
  · rintro ⟨h1, _⟩ e he s hs
    exact (h1 e he).2.1 s hs
  · intro h
    exact ⟨fun e he => ⟨⟨_, rfl⟩, fun s hs => h e he s hs, ⟨_, rfl⟩⟩, ⟨_, rfl⟩⟩

theorem generate_interface_ok_iff (w : BsvWriter) (hw : w.interface_groups = [])
    (m : Module) (i : String) :
    (∃ w', generate_interface w m i = .ok w')
      ↔ ∀ port ∈ m.ports, is_clock_or_reset w port.name = false → port.name ∉ w.groups := by
  have hs : sorted_keys w.interface_groups := by rw [hw]; exact sorted_keys_nil
  rw [← write_module_ok_iff w hw m, write_module_eq w m hs, generate_interface_eq,
    emit_ok_iff, emit_ok_iff, module_trace_ok_iff, interface_trace_ok_iff]
  have hent := regroup_ports_entries w w.groups (collect_ports w m).ports hw
  constructor
  · intro h e he s hs'
    obtain ⟨h1, h2, h3⟩ := h e he s hs'
    refine ⟨h1, h2, ?_, h3⟩
    obtain ⟨port, hport, _, hname⟩ := (mem_collect_ports_iff w m s).mp (hent e he s hs').1
    rw [instance_portmap_find]
    exact find?_name_isSome _ s (List.mem_map.mpr ⟨port, hport, hname⟩)
  · intro h e he s hs'
    obtain ⟨h1, h2, _, h3⟩ := h e he s hs'
    exact ⟨h1, h2, h3⟩

/-! ## Header and aggregate interface -/

/-- C14: with the clock `clk` and no reset, `write_module` writes the header
chunks `module mkTop#(`, `Clock clk, `, `)` and `(Top);`: the parameter list
`Clock clk, ` ends in a separator. -/
theorem header_trailing_separator :
    clock_only_writer.clocks = ["clk"] ∧ clock_only_writer.resets = []
    ∧ ∃ w', write_module clock_only_writer clock_module = .ok w'
      ∧ w'.f = [
        "(* always_ready, always_enabled *)\n", "interface Foo;\n",
        "   method Action a(Bit#(1) v);\n", "endinterface\n",
        "(* always_ready, always_enabled *)\n", "interface Top;\n",
        "    interface Foo foo;\n", "endinterface\n",
        "import \"BVI\" m=\n", "module mkTop#(", "Clock clk, ", ")", "(Top);\n",
        "    input_clock clk() = clk;\n",
        "    interface Foo foo;\n", "        method a(a) enable((*in_high*) EN_a);\n",
        "    endinterface\n",
        "    schedule(\n", "        foo_a", "\n    ) CF (\n", "        foo_a", "\n    );\n",
        "endmodule\n"]
      ∧ String.join ["module mkTop#(", "Clock clk, ", ")", "(Top);\n"]
        = "module mkTop#(Clock clk, )(Top);\n" :=
  ⟨rfl, rfl, _, rfl, rfl, by decide⟩

/-- C15: with the interface name `top`, `generate_interface` declares the
aggregate interface as `interface Top;` and `write_module` names the
interface of the wrapper as `(top);`: two identifiers that differ. -/
theorem wrapper_type_differs :
    ∃ w', write_module lower_writer first_module = .ok w'
      ∧ w'.f = [
        "(* always_ready, always_enabled *)\n", "interface Foo;\n",
        "   method Action a(Bit#(1) v);\n", "endinterface\n",
        "(* always_ready, always_enabled *)\n", "interface Top;\n",
        "    interface Foo foo;\n", "endinterface\n",
        "import \"BVI\" a=\n", "module mktop#(", ")", "(top);\n",
        "    interface Foo foo;\n", "        method a(a) enable((*in_high*) EN_a);\n",
        "    endinterface\n",
        "    schedule(\n", "        foo_a", "\n    ) CF (\n", "        foo_a", "\n    );\n",
        "endmodule\n"]
      ∧ to_type_name lower_writer.interface = "Top"
      ∧ lower_writer.interface = "top" :=
  ⟨_, rfl, rfl, by decide, rfl⟩

/-! ## Classification by exact name -/

theorem regular_ports_eq_filter (w : BsvWriter) (m : Module) :
    regular_ports w m
      = m.ports.filter (fun p => decide (p.name ∉ w.clocks ∧ p.name ∉ w.resets)) := by
  unfold regular_ports
  apply List.filter_congr
  intro p _
  have h := is_clock_or_reset_iff w p.name
  cases hc : is_clock_or_reset w p.name
  · have : ¬ (p.name ∈ w.clocks ∨ p.name ∈ w.resets) := by
      intro h'
      have := h.mpr h'
      rw [hc] at this
      exact absurd this (by simp)
    simp only [Bool.not_false]
    symm
    apply decide_eq_true
    exact ⟨fun h1 => this (Or.inl h1), fun h2 => this (Or.inr h2)⟩
  · have := h.mp hc
    simp only [Bool.not_true]
    symm
    apply decide_eq_false
    rintro ⟨h1, h2⟩
    rcases this with h3 | h3
    · exact h1 h3
    · exact h2 h3

/-- C16 (exact-name classification): the port vector of `generate_interface`
and the one of `generate_schedule` are the ports of the module, in order,
whose names are equal to no configured clock name and to no configured reset
name; a name that only contains a clock or reset name is not equal to it and
stays. Started with an empty group map, no member of a group has the name of
a clock or a reset, also when that name contains a prefix. -/
theorem exact_name_classification (w : BsvWriter) (hw : w.interface_groups = [])
    (m : Module) :
    (collect_ports w m).ports
        = (m.ports.filter (fun p => decide (p.name ∉ w.clocks ∧ p.name ∉ w.resets))).map
            Port.name
    ∧ schedule_ports w m
        = (m.ports.filter (fun p => decide (p.name ∉ w.clocks ∧ p.name ∉ w.resets))).map
            Port.name
    ∧ ∀ e ∈ (regroup_ports w w.groups (collect_ports w m).ports).interface_groups,
        ∀ s ∈ e.2, s ∉ w.clocks ∧ s ∉ w.resets := by
  refine ⟨?_, ?_, ?_⟩
  · rw [collect_ports_ports, regular_ports_eq_filter]
  · rw [schedule_ports_eq, regular_ports_eq_filter]
  · intro e he s hs
    have h1 := (regroup_ports_entries w w.groups _ hw e he s hs).1
    obtain ⟨port, _, hreg, hname⟩ := (mem_collect_ports_iff w m s).mp h1
    rw [hname] at hreg
    have hn : ¬ (s ∈ w.clocks ∨ s ∈ w.resets) := by
      intro h'
      have := (is_clock_or_reset_iff w s).mpr h'
      rw [hreg] at this
      exact absurd this (by simp)
    exact ⟨fun h => hn (Or.inl h), fun h => hn (Or.inr h)⟩

theorem exact_name_classification_witness :
    foo_clk_writer.interface_groups = []
    ∧ (collect_ports foo_clk_writer foo_clk_module).ports = ["foo_clk2", "foo_a"]
    ∧ (regroup_ports foo_clk_writer foo_clk_writer.groups
        (collect_ports foo_clk_writer foo_clk_module).ports).interface_groups
      = [("foo", ["foo_clk2", "foo_a"])]
    ∧ (find "foo_clk" "foo").isSome = true
    ∧ ∀ e ∈ (regroup_ports foo_clk_writer foo_clk_writer.groups
          (collect_ports foo_clk_writer foo_clk_module).ports).interface_groups,
        ∀ s ∈ e.2, s ∉ foo_clk_writer.clocks ∧ s ∉ foo_clk_writer.resets :=
  ⟨rfl, by decide, by decide, by decide,
    (exact_name_classification foo_clk_writer rfl foo_clk_module).2.2⟩

/-! ## Stripping a name that is too short -/

/-- C17 (strip is partial): `p.substr(|g|+1)` returns exactly when
`|p| >= |g|+1` and throws otherwise. Started with an empty group map,
`generate_interface` throws whenever a port that is neither clock nor reset
has a name equal to a configured prefix. On the module with the single port
`foo` and the group `foo`, `regroup_ports` makes the port a member of the
group and `generate_interface` throws from `substr` when the stream holds
the first two chunks of the block and no method line. -/
theorem strip_needs_length (w : BsvWriter) (hw : w.interface_groups = []) (m : Module)
    (i : String) :
    (∀ p g : String, (∃ r, substr p (g.length + 1) = .ok r) ↔ g.length + 1 ≤ p.length)
    ∧ (∀ p g : String, ¬ g.length + 1 ≤ p.length →
        substr p (g.length + 1) = .error Err.substr)
    ∧ ((∃ port ∈ m.ports, is_clock_or_reset w port.name = false ∧ port.name ∈ w.groups)
        → ∃ e w', generate_interface w m i = .error (e, w'))
    ∧ ∃ w', generate_interface foo_writer exact_module "Top" = .error (Err.substr, w')
      ∧ w'.interface_groups = [("foo", ["foo"])]
      ∧ w'.f = ["(* always_ready, always_enabled *)\n", "interface Foo;\n"] := by
  refine ⟨fun p g => substr_ok_iff p (g.length + 1), ?_, ?_, ⟨_, rfl, rfl, rfl⟩⟩
  · intro p g h
    unfold substr
    rw [if_pos (by omega)]
  · rintro ⟨port, hport, hreg, hg⟩
    cases hgi : generate_interface w m i with
    | error y => exact ⟨y.1, y.2, rfl⟩
    | ok w' =>
      exact absurd hg ((generate_interface_ok_iff w hw m i).mp ⟨w', hgi⟩ port hport hreg)

theorem strip_needs_length_witness :
    foo_writer.interface_groups = []
    ∧ (∃ port ∈ exact_module.ports,
        is_clock_or_reset foo_writer port.name = false ∧ port.name ∈ foo_writer.groups)
    ∧ ∃ e w', generate_interface foo_writer exact_module "Top" = .error (e, w') :=
  ⟨rfl, by decide,
    (strip_needs_length foo_writer rfl exact_module "Top").2.2.1 (by decide)⟩

/-! ## Type names -/

theorem toupper_idem (c : Char) : toupper (toupper c) = toupper c := by
  unfold toupper
  by_cases h : 97 ≤ c.toNat ∧ c.toNat ≤ 122
  · rw [if_pos h]
    have hn : ¬ (97 ≤ (Char.ofNat (c.toNat - 32)).toNat
        ∧ (Char.ofNat (c.toNat - 32)).toNat ≤ 122) := by
      obtain ⟨h1, h2⟩ := h
      generalize c.toNat = n at h1 h2
      interval_cases n <;> decide
    rw [if_neg hn]
  · rw [if_neg h, if_neg h]

theorem to_type_name_data (s : String) :
    (to_type_name s).data
      = match s.data with
        | [] => []
        | c :: cs => toupper c :: cs := by
  unfold to_type_name
  cases h : s.data with
  | nil => simp [h]
  | cons c cs => simp

/-- C18 (type-name collisions): `to_type_name` keeps the length and all
characters after the first and puts `toupper` of the first character in its
place; so it is idempotent, and it is not injective: `foo` and `Foo` have
the type name `Foo`, and with both configured as prefixes
`generate_interface` writes two interface blocks `interface Foo;`. -/
theorem type_name_collisions :
    (∀ s : String, (to_type_name s).length = s.length
      ∧ (to_type_name s).data.tail = s.data.tail
      ∧ (to_type_name s).data.head? = s.data.head?.map toupper)
    ∧ (∀ s : String, to_type_name (to_type_name s) = to_type_name s)
    ∧ ("foo" ≠ "Foo" ∧ to_type_name "foo" = to_type_name "Foo")
    ∧ ∃ w', generate_interface case_writer case_module "Top" = .ok w'
      ∧ w'.interface_groups = [("Foo", ["Foo_b"]), ("foo", ["foo_a"])]
      ∧ w'.f = [
        "(* always_ready, always_enabled *)\n", "interface Foo;\n",
        "   method Bit#(2) b();\n", "endinterface\n",
        "(* always_ready, always_enabled *)\n", "interface Foo;\n",
        "   method Action a(Bit#(1) v);\n", "endinterface\n",
        "(* always_ready, always_enabled *)\n", "interface Top;\n",
        "    interface Foo Foo;\n", "    interface Foo foo;\n", "endinterface\n"] := by
  refine ⟨?_, ?_, ⟨by decide, by decide⟩, ⟨_, rfl, rfl, rfl⟩⟩
  · intro s
    have hd := to_type_name_data s
    have hl : ∀ t : String, t.length = t.data.length := fun _ => rfl
    rw [hl, hl, hd]
    cases s.data with
    | nil => simp
    | cons c cs => simp
  · intro s
    apply String.ext
    rw [to_type_name_data, to_type_name_data]
    cases s.data with
    | nil => rfl
    | cons c cs => simp [toupper_idem]

/-! ## What `generate_interface` and `generate_instance` write for each member -/

theorem member_port_facts (w : BsvWriter) (m : Module) (s : String)
    (h1 : ∃ id, (collect_ports w m).port_map.find s = some id) :
    ∃ port, port ∈ m.ports ∧ port.name = s ∧ is_clock_or_reset w s = false
      ∧ m.ports.find? (fun n => n.name = s) = some port := by
  obtain ⟨id, hid⟩ := h1
  rw [collect_ports_map] at hid
  have hmem := List.mem_of_find?_eq_some hid
  have hname : id.name = s := by simpa using List.find?_some hid
  unfold regular_ports at hmem hid
  obtain ⟨hm1, hm2⟩ := List.mem_filter.mp hmem
  have hreg : is_clock_or_reset w s = false := by
    rw [hname] at hm2
    simpa using hm2
  refine ⟨id, hm1, hname, hreg, ?_⟩
  rw [← find?_filter_name m.ports (fun s => !is_clock_or_reset w s) s (by simp [hreg])]
  exact hid

theorem interface_blocks_eq_spec (w : BsvWriter) (m : Module) (igs : StdMap (List String))
    (hall : ∀ e ∈ igs, ∀ s ∈ e.2,
      (∃ id, (collect_ports w m).port_map.find s = some id)
      ∧ (∃ n, (collect_ports w m).port_sizes.find s = some n)
      ∧ e.1.length + 1 ≤ s.length) :
    Trace.all (interface_group_trace (collect_ports w m)) igs
      = .ok (igs.flatMap (fun e => spec_interface_block e.1 (e.2.map (decl_of m e.1)))) := by
  apply Trace.all_eq_ok
  intro e he
  unfold interface_group_trace spec_interface_block
  rw [Trace.all_eq_ok (interface_method_trace (collect_ports w m) e.1)
    (fun p => spec_interface_lines (decl_of m e.1 p)) e.2]
  · simp [Trace.seq, flatMap_map_decl]
  · intro s hs
    obtain ⟨h1, _, h3⟩ := hall e he s hs
    obtain ⟨port, _, _, hreg, hfind⟩ := member_port_facts w m s h1
    exact interface_method_trace_decl w m e.1 s port hfind hreg h3

theorem generate_interface_ok_members (w : BsvWriter) (m : Module) (i : String)
    (w' : BsvWriter) (h : generate_interface w m i = .ok w') :
    ∀ e ∈ (regroup_ports w w.groups (collect_ports w m).ports).interface_groups,
      ∀ s ∈ e.2,
        (∃ id, (collect_ports w m).port_map.find s = some id)
        ∧ (∃ n, (collect_ports w m).port_sizes.find s = some n)
        ∧ e.1.length + 1 ≤ s.length := by
  rw [generate_interface_eq] at h
  exact (interface_trace_ok_iff _ _ i).mp ((emit_ok_iff _ _).mp ⟨w', h⟩)

theorem generate_interface_ok_eq_spec (w : BsvWriter) (m : Module) (i : String)
    (w' : BsvWriter) (h : generate_interface w m i = .ok w') :
    w' = (regroup_ports w w.groups (collect_ports w m).ports).append
      ((regroup_ports w w.groups (collect_ports w m).ports).interface_groups.flatMap
          (fun e => spec_interface_block e.1 (e.2.map (decl_of m e.1)))
        ++ aggregate_chunks (regroup_ports w w.groups (collect_ports w m).ports).interface_groups
            i) := by
  have hall := generate_interface_ok_members w m i w' h
  rw [generate_interface_eq] at h
  unfold interface_trace at h
  rw [interface_blocks_eq_spec w m _ hall] at h
  simp only [Trace.seq, emit, Except.ok.injEq] at h
  exact h.symm

theorem spec_interface_lines_length (d : Decl) :
    (spec_interface_lines d).length ≤ 1
    ∧ ((d.direction = "input" ∨ d.direction = "output") →
        (spec_interface_lines d).length = 1)
    ∧ (d.direction = "inout" → spec_interface_lines d = []) := by
  have hne2 : ("inout" : String) ≠ "input" := by decide
  have hne3 : ("inout" : String) ≠ "output" := by decide
  unfold spec_interface_lines Decl.method_name
  refine ⟨?_, ?_, ?_⟩
  · by_cases h : d.direction = "input" ∨ d.direction = "output"
    · rw [if_pos h]
      simp only
      split_ifs <;> simp
    · rw [if_neg h]
      simp
  · intro h
    rw [if_pos h]
    simp only
    split_ifs <;> simp
  · intro h
    simp [h, hne2, hne3]

/-- C10, amended (no prefix deduplication): `regroup_ports` removes no
duplicates. Started from an empty map, the prefixes that get an entry are the
same as for the list without duplicates, but the port name `p` occurs in the
member list of `g` as many times as `g` occurs in the configured list times
`p` occurs in the port list when `p` contains `g`, and not at all otherwise;
so no name is twice in a member list when no prefix and no port name is
repeated. When `generate_interface` returns, the interface block of every
group holds the interface lines of its members once for each occurrence in
the member list: at most one line for an occurrence, exactly one for an
input or output member and none for an inout member. -/
theorem no_prefix_deduplication (w : BsvWriter) (hw : w.interface_groups = [])
    (groups ports : List String) (m : Module) :
    (∀ g p, (((regroup_ports w groups ports).interface_groups.find g).getD []).count p
        = if (find p g).isSome then groups.count g * ports.count p else 0)
    ∧ (groups.Nodup → ports.Nodup →
        ∀ g, (((regroup_ports w groups ports).interface_groups.find g).getD []).Nodup)
    ∧ (∀ g, (∃ l, (regroup_ports w groups ports).interface_groups.find g = some l)
        ↔ ∃ l, (regroup_ports w groups.dedup ports).interface_groups.find g = some l)
    ∧ (∀ i w', generate_interface w m i = .ok w' →
        ∃ igs : StdMap (List String),
          igs = (regroup_ports w w.groups (collect_ports w m).ports).interface_groups
          ∧ w'.f = w.f
              ++ (igs.flatMap (fun e =>
                    ["(* always_ready, always_enabled *)\n",
                      "interface " ++ to_type_name e.1 ++ ";\n"]
                    ++ e.2.flatMap (fun s => spec_interface_lines (decl_of m e.1 s))
                    ++ ["endinterface\n"])
                ++ aggregate_chunks igs i))
    ∧ (∀ g s port, m.ports.find? (fun q => q.name = s) = some port →
        (decl_of m g s).direction = direction_of port.wire)
    ∧ (∀ d : Decl, (spec_interface_lines d).length ≤ 1
        ∧ ((d.direction = "input" ∨ d.direction = "output") →
            (spec_interface_lines d).length = 1)
        ∧ (d.direction = "inout" → spec_interface_lines d = [])) := by
  refine ⟨fun g p => member_count w hw groups ports g p, ?_, ?_, ?_, ?_,
    spec_interface_lines_length⟩
  · intro hg hp g
    rw [List.nodup_iff_count_le_one]
    intro p
    rw [member_count w hw groups ports g p]
    split_ifs
    · have h1 := List.nodup_iff_count_le_one.mp hg g
      have h2 := List.nodup_iff_count_le_one.mp hp p
      calc groups.count g * ports.count p ≤ 1 * 1 := Nat.mul_le_mul h1 h2
        _ = 1 := rfl
    · exact Nat.zero_le 1
  · intro g
    rw [find_regroup_ports_isSome_iff w hw, find_regroup_ports_isSome_iff w hw,
      List.mem_dedup]
  · intro i w' h
    refine ⟨_, rfl, ?_⟩
    rw [generate_interface_ok_eq_spec w m i w' h, append_f, regroup_ports_f]
    simp only [spec_interface_block, flatMap_map_decl]
  · intro g s port hfind
    unfold decl_of
    rw [hfind]

theorem no_prefix_deduplication_witness :
    foo_twice_writer.interface_groups = []
    ∧ (∀ g p, (((regroup_ports foo_twice_writer ["foo", "foo"]
            ["foo_in", "foo_out", "foo_io"]).interface_groups.find g).getD []).count p
        = if (find p g).isSome then
            ["foo", "foo"].count g * ["foo_in", "foo_out", "foo_io"].count p
          else 0)
    ∧ (regroup_ports foo_twice_writer ["foo", "foo"]
        ["foo_in", "foo_out", "foo_io"]).interface_groups
      = [("foo", ["foo_in", "foo_in", "foo_out", "foo_out", "foo_io", "foo_io"])]
    ∧ ∃ w', generate_interface foo_twice_writer io_module "Top" = .ok w'
      ∧ w'.f = [
        "(* always_ready, always_enabled *)\n", "interface Foo;\n",
        "   method Action in(Bit#(4) v);\n", "   method Action in(Bit#(4) v);\n",
        "   method Bit#(2) out();\n", "   method Bit#(2) out();\n", "endinterface\n",
        "(* always_ready, always_enabled *)\n", "interface Top;\n",
        "    interface Foo foo;\n", "endinterface\n"] :=
  ⟨rfl,
    (no_prefix_deduplication foo_twice_writer rfl ["foo", "foo"]
      ["foo_in", "foo_out", "foo_io"] io_module).1,
    by decide, _, rfl, rfl⟩

end Bsv
